import Mathlib

set_option maxRecDepth 16384

/-!
Verification of the rslox lexical scanner (src/scanner.rs, src/token.rs).

The scanner is embedded shallowly: the Rust `Scanner` owns an immutable
character buffer and a cursor `current`; every read is at or after the
cursor, so the state is modelled by the not-yet-consumed suffix of the
input (a `List Char`).  Cursor advancement corresponds to shortening of
that suffix.  Fallible Rust code (`Result`, `bail!`) is modelled with
`Except ScanError`.
-/

/-- Embeds `TokenKind` from src/token.rs together with the additional
variants that `Scanner::scan_next_token` in src/scanner.rs constructs
(`Star`, `Slash`, `String`, and the sixteen keyword variants).  The Rust
`i32` payload of `Number` is modelled as `Int`; the `String` payload as
`List Char`. -/
inductive TokenKind where
  | Bang | BangEqual | Equal | EqualEqual | Less | LessEqual | Greater | GreaterEqual
  | Comma | Dot | LeftParen | RightParen | LeftBrace | RightBrace | Minus | Plus
  | Semicolon | Star | Slash
  | Number (n : Int)
  | String (s : List Char)
  | And | Class | Else | False | For | Fun | If | Nil | Or | Print | Return
  | Super | This | True | Var | While
  | EndOfFile
  deriving DecidableEq

/-- Embeds `struct Token` from src/token.rs: a record holding a `TokenKind`. -/
structure Token where
  kind : TokenKind
  deriving DecidableEq

/-- The errors raised by `bail!` / `?` in `Scanner::scan_next_token`
(src/scanner.rs): the unterminated-string error, the `i32` parse error on a
digit run (overflow), the unrecognized-keyword error carrying the offending
word, and the unrecognized-token error carrying the offending character. -/
inductive ScanError where
  | UnterminatedString
  | NumberParse (digits : List Char)
  | UnrecognizedKeyword (word : List Char)
  | UnrecognizedToken (ch : Char)
  deriving DecidableEq

/-- Embeds Rust `char::is_whitespace`, used by the `is_whitespace` helper of
src/scanner.rs: the Unicode White_Space property, listed here by scalar
value (tab, LF, vertical tab, form feed, CR, space, NEL, NBSP, ogham space,
the U+2000..200A range, line/paragraph separator, narrow NBSP, medium
mathematical space, ideographic space). -/
def rust_is_whitespace (c : Char) : Bool :=
  c.toNat = 9 || c.toNat = 10 || c.toNat = 11 || c.toNat = 12 || c.toNat = 13 ||
  c.toNat = 32 || c.toNat = 133 || c.toNat = 160 || c.toNat = 5760 ||
  (8192 ≤ c.toNat && c.toNat ≤ 8202) || c.toNat = 8232 || c.toNat = 8233 ||
  c.toNat = 8239 || c.toNat = 8287 || c.toNat = 12288

/-- The Unicode general categories Nd, Nl and No (Unicode 14.0.0),
transcribed as inclusive ranges of scalar values.  These are the categories
Rust's `char::is_numeric` tests. -/
def unicode_numeric_ranges : List (Nat × Nat) :=
  [(48, 57), (178, 179), (185, 185), (188, 190), (1632, 1641), (1776, 1785),
   (1984, 1993), (2406, 2415), (2534, 2543), (2548, 2553), (2662, 2671),
   (2790, 2799), (2918, 2927), (2930, 2935), (3046, 3058), (3174, 3183),
   (3192, 3198), (3302, 3311), (3416, 3422), (3430, 3448), (3558, 3567),
   (3664, 3673), (3792, 3801), (3872, 3891), (4160, 4169), (4240, 4249),
   (4969, 4988), (5870, 5872), (6112, 6121), (6128, 6137), (6160, 6169),
   (6470, 6479), (6608, 6618), (6784, 6793), (6800, 6809), (6992, 7001),
   (7088, 7097), (7232, 7241), (7248, 7257), (8304, 8304), (8308, 8313),
   (8320, 8329), (8528, 8578), (8581, 8585), (9312, 9371), (9450, 9471),
   (10102, 10131), (11517, 11517), (12295, 12295), (12321, 12329),
   (12344, 12346), (12690, 12693), (12832, 12841), (12872, 12879),
   (12881, 12895), (12928, 12937), (12977, 12991), (42528, 42537),
   (42726, 42735), (43056, 43061), (43216, 43225), (43264, 43273),
   (43472, 43481), (43504, 43513), (43600, 43609), (44016, 44025),
   (65296, 65305), (65799, 65843), (65856, 65912), (65930, 65931),
   (66273, 66299), (66336, 66339), (66369, 66369), (66378, 66378),
   (66513, 66517), (66720, 66729), (67672, 67679), (67705, 67711),
   (67751, 67759), (67835, 67839), (67862, 67867), (68028, 68029),
   (68032, 68047), (68050, 68095), (68160, 68168), (68221, 68222),
   (68253, 68255), (68331, 68335), (68440, 68447), (68472, 68479),
   (68521, 68527), (68858, 68863), (68912, 68921), (69216, 69246),
   (69405, 69414), (69457, 69460), (69573, 69579), (69714, 69743),
   (69872, 69881), (69942, 69951), (70096, 70105), (70113, 70132),
   (70384, 70393), (70736, 70745), (70864, 70873), (71248, 71257),
   (71360, 71369), (71472, 71483), (71904, 71922), (72016, 72025),
   (72784, 72812), (73040, 73049), (73120, 73129), (73664, 73684),
   (74752, 74862), (92768, 92777), (92864, 92873), (93008, 93017),
   (93019, 93025), (93824, 93846), (119520, 119539), (119648, 119672),
   (120782, 120831), (123200, 123209), (123632, 123641), (125127, 125135),
   (125264, 125273), (126065, 126123), (126125, 126127), (126129, 126132),
   (126209, 126253), (126255, 126269), (127232, 127244), (130032, 130041)]

/-- The Unicode `Alphabetic` derived property (Unicode 14.0.0), transcribed
as inclusive ranges of scalar values.  This is the property Rust's
`char::is_alphabetic` tests. -/
def unicode_alphabetic_ranges : List (Nat × Nat) :=
  [(65, 90), (97, 122), (170, 170), (181, 181), (186, 186), (192, 214),
   (216, 246), (248, 705), (710, 721), (736, 740), (748, 748), (750, 750),
   (837, 837), (880, 884), (886, 887), (890, 893), (895, 895), (902, 902),
   (904, 906), (908, 908), (910, 929), (931, 1013), (1015, 1153),
   (1162, 1327), (1329, 1366), (1369, 1369), (1376, 1416), (1456, 1469),
   (1471, 1471), (1473, 1474), (1476, 1477), (1479, 1479), (1488, 1514),
   (1519, 1522), (1552, 1562), (1568, 1623), (1625, 1631), (1646, 1747),
   (1749, 1756), (1761, 1768), (1773, 1775), (1786, 1788), (1791, 1791),
   (1808, 1855), (1869, 1969), (1994, 2026), (2036, 2037), (2042, 2042),
   (2048, 2071), (2074, 2092), (2112, 2136), (2144, 2154), (2160, 2183),
   (2185, 2190), (2208, 2249), (2260, 2271), (2275, 2281), (2288, 2363),
   (2365, 2380), (2382, 2384), (2389, 2403), (2417, 2435), (2437, 2444),
   (2447, 2448), (2451, 2472), (2474, 2480), (2482, 2482), (2486, 2489),
   (2493, 2500), (2503, 2504), (2507, 2508), (2510, 2510), (2519, 2519),
   (2524, 2525), (2527, 2531), (2544, 2545), (2556, 2556), (2561, 2563),
   (2565, 2570), (2575, 2576), (2579, 2600), (2602, 2608), (2610, 2611),
   (2613, 2614), (2616, 2617), (2622, 2626), (2631, 2632), (2635, 2636),
   (2641, 2641), (2649, 2652), (2654, 2654), (2672, 2677), (2689, 2691),
   (2693, 2701), (2703, 2705), (2707, 2728), (2730, 2736), (2738, 2739),
   (2741, 2745), (2749, 2757), (2759, 2761), (2763, 2764), (2768, 2768),
   (2784, 2787), (2809, 2812), (2817, 2819), (2821, 2828), (2831, 2832),
   (2835, 2856), (2858, 2864), (2866, 2867), (2869, 2873), (2877, 2884),
   (2887, 2888), (2891, 2892), (2902, 2903), (2908, 2909), (2911, 2915),
   (2929, 2929), (2946, 2947), (2949, 2954), (2958, 2960), (2962, 2965),
   (2969, 2970), (2972, 2972), (2974, 2975), (2979, 2980), (2984, 2986),
   (2990, 3001), (3006, 3010), (3014, 3016), (3018, 3020), (3024, 3024),
   (3031, 3031), (3072, 3075), (3077, 3084), (3086, 3088), (3090, 3112),
   (3114, 3129), (3133, 3140), (3142, 3144), (3146, 3148), (3157, 3158),
   (3160, 3162), (3165, 3165), (3168, 3171), (3200, 3203), (3205, 3212),
   (3214, 3216), (3218, 3240), (3242, 3251), (3253, 3257), (3261, 3268),
   (3270, 3272), (3274, 3276), (3285, 3286), (3293, 3294), (3296, 3299),
   (3313, 3314), (3328, 3340), (3342, 3344), (3346, 3386), (3389, 3396),
   (3398, 3400), (3402, 3404), (3406, 3406), (3412, 3415), (3423, 3427),
   (3450, 3455), (3457, 3459), (3461, 3478), (3482, 3505), (3507, 3515),
   (3517, 3517), (3520, 3526), (3535, 3540), (3542, 3542), (3544, 3551),
   (3570, 3571), (3585, 3642), (3648, 3654), (3661, 3661), (3713, 3714),
   (3716, 3716), (3718, 3722), (3724, 3747), (3749, 3749), (3751, 3769),
   (3771, 3773), (3776, 3780), (3782, 3782), (3789, 3789), (3804, 3807),
   (3840, 3840), (3904, 3911), (3913, 3948), (3953, 3969), (3976, 3991),
   (3993, 4028), (4096, 4150), (4152, 4152), (4155, 4159), (4176, 4239),
   (4250, 4253), (4256, 4293), (4295, 4295), (4301, 4301), (4304, 4346),
   (4348, 4680), (4682, 4685), (4688, 4694), (4696, 4696), (4698, 4701),
   (4704, 4744), (4746, 4749), (4752, 4784), (4786, 4789), (4792, 4798),
   (4800, 4800), (4802, 4805), (4808, 4822), (4824, 4880), (4882, 4885),
   (4888, 4954), (4992, 5007), (5024, 5109), (5112, 5117), (5121, 5740),
   (5743, 5759), (5761, 5786), (5792, 5866), (5870, 5880), (5888, 5907),
   (5919, 5939), (5952, 5971), (5984, 5996), (5998, 6000), (6002, 6003),
   (6016, 6067), (6070, 6088), (6103, 6103), (6108, 6108), (6176, 6264),
   (6272, 6314), (6320, 6389), (6400, 6430), (6432, 6443), (6448, 6456),
   (6480, 6509), (6512, 6516), (6528, 6571), (6576, 6601), (6656, 6683),
   (6688, 6750), (6753, 6772), (6823, 6823), (6847, 6848), (6860, 6862),
   (6912, 6963), (6965, 6979), (6981, 6988), (7040, 7081), (7084, 7087),
   (7098, 7141), (7143, 7153), (7168, 7222), (7245, 7247), (7258, 7293),
   (7296, 7304), (7312, 7354), (7357, 7359), (7401, 7404), (7406, 7411),
   (7413, 7414), (7418, 7418), (7424, 7615), (7655, 7668), (7680, 7957),
   (7960, 7965), (7968, 8005), (8008, 8013), (8016, 8023), (8025, 8025),
   (8027, 8027), (8029, 8029), (8031, 8061), (8064, 8116), (8118, 8124),
   (8126, 8126), (8130, 8132), (8134, 8140), (8144, 8147), (8150, 8155),
   (8160, 8172), (8178, 8180), (8182, 8188), (8305, 8305), (8319, 8319),
   (8336, 8348), (8450, 8450), (8455, 8455), (8458, 8467), (8469, 8469),
   (8473, 8477), (8484, 8484), (8486, 8486), (8488, 8488), (8490, 8493),
   (8495, 8505), (8508, 8511), (8517, 8521), (8526, 8526), (8544, 8584),
   (9398, 9449), (11264, 11492), (11499, 11502), (11506, 11507),
   (11520, 11557), (11559, 11559), (11565, 11565), (11568, 11623),
   (11631, 11631), (11648, 11670), (11680, 11686), (11688, 11694),
   (11696, 11702), (11704, 11710), (11712, 11718), (11720, 11726),
   (11728, 11734), (11736, 11742), (11744, 11775), (11823, 11823),
   (12293, 12295), (12321, 12329), (12337, 12341), (12344, 12348),
   (12353, 12438), (12445, 12447), (12449, 12538), (12540, 12543),
   (12549, 12591), (12593, 12686), (12704, 12735), (12784, 12799),
   (13312, 19903), (19968, 42124), (42192, 42237), (42240, 42508),
   (42512, 42527), (42538, 42539), (42560, 42606), (42612, 42619),
   (42623, 42735), (42775, 42783), (42786, 42888), (42891, 42954),
   (42960, 42961), (42963, 42963), (42965, 42969), (42994, 43013),
   (43015, 43047), (43072, 43123), (43136, 43203), (43205, 43205),
   (43250, 43255), (43259, 43259), (43261, 43263), (43274, 43306),
   (43312, 43346), (43360, 43388), (43392, 43442), (43444, 43455),
   (43471, 43471), (43488, 43503), (43514, 43518), (43520, 43574),
   (43584, 43597), (43616, 43638), (43642, 43710), (43712, 43712),
   (43714, 43714), (43739, 43741), (43744, 43759), (43762, 43765),
   (43777, 43782), (43785, 43790), (43793, 43798), (43808, 43814),
   (43816, 43822), (43824, 43866), (43868, 43881), (43888, 44010),
   (44032, 55203), (55216, 55238), (55243, 55291), (63744, 64109),
   (64112, 64217), (64256, 64262), (64275, 64279), (64285, 64296),
   (64298, 64310), (64312, 64316), (64318, 64318), (64320, 64321),
   (64323, 64324), (64326, 64433), (64467, 64829), (64848, 64911),
   (64914, 64967), (65008, 65019), (65136, 65140), (65142, 65276),
   (65313, 65338), (65345, 65370), (65382, 65470), (65474, 65479),
   (65482, 65487), (65490, 65495), (65498, 65500), (65536, 65547),
   (65549, 65574), (65576, 65594), (65596, 65597), (65599, 65613),
   (65616, 65629), (65664, 65786), (65856, 65908), (66176, 66204),
   (66208, 66256), (66304, 66335), (66349, 66378), (66384, 66426),
   (66432, 66461), (66464, 66499), (66504, 66511), (66513, 66517),
   (66560, 66717), (66736, 66771), (66776, 66811), (66816, 66855),
   (66864, 66915), (66928, 66938), (66940, 66954), (66956, 66962),
   (66964, 66965), (66967, 66977), (66979, 66993), (66995, 67001),
   (67003, 67004), (67072, 67382), (67392, 67413), (67424, 67431),
   (67456, 67461), (67463, 67504), (67506, 67514), (67584, 67589),
   (67592, 67592), (67594, 67637), (67639, 67640), (67644, 67644),
   (67647, 67669), (67680, 67702), (67712, 67742), (67808, 67826),
   (67828, 67829), (67840, 67861), (67872, 67897), (67968, 68023),
   (68030, 68031), (68096, 68099), (68101, 68102), (68108, 68115),
   (68117, 68119), (68121, 68149), (68192, 68220), (68224, 68252),
   (68288, 68295), (68297, 68324), (68352, 68405), (68416, 68437),
   (68448, 68466), (68480, 68497), (68608, 68680), (68736, 68786),
   (68800, 68850), (68864, 68903), (69248, 69289), (69291, 69292),
   (69296, 69297), (69376, 69404), (69415, 69415), (69424, 69445),
   (69488, 69505), (69552, 69572), (69600, 69622), (69632, 69701),
   (69745, 69749), (69762, 69816), (69826, 69826), (69840, 69864),
   (69888, 69938), (69956, 69959), (69968, 70002), (70006, 70006),
   (70016, 70079), (70081, 70084), (70094, 70095), (70106, 70106),
   (70108, 70108), (70144, 70161), (70163, 70196), (70199, 70199),
   (70206, 70206), (70272, 70278), (70280, 70280), (70282, 70285),
   (70287, 70301), (70303, 70312), (70320, 70376), (70400, 70403),
   (70405, 70412), (70415, 70416), (70419, 70440), (70442, 70448),
   (70450, 70451), (70453, 70457), (70461, 70468), (70471, 70472),
   (70475, 70476), (70480, 70480), (70487, 70487), (70493, 70499),
   (70656, 70721), (70723, 70725), (70727, 70730), (70751, 70753),
   (70784, 70849), (70852, 70853), (70855, 70855), (71040, 71093),
   (71096, 71102), (71128, 71133), (71168, 71230), (71232, 71232),
   (71236, 71236), (71296, 71349), (71352, 71352), (71424, 71450),
   (71453, 71466), (71488, 71494), (71680, 71736), (71840, 71903),
   (71935, 71942), (71945, 71945), (71948, 71955), (71957, 71958),
   (71960, 71989), (71991, 71992), (71995, 71996), (71999, 72002),
   (72096, 72103), (72106, 72151), (72154, 72159), (72161, 72161),
   (72163, 72164), (72192, 72242), (72245, 72254), (72272, 72343),
   (72349, 72349), (72368, 72440), (72704, 72712), (72714, 72758),
   (72760, 72766), (72768, 72768), (72818, 72847), (72850, 72871),
   (72873, 72886), (72960, 72966), (72968, 72969), (72971, 73014),
   (73018, 73018), (73020, 73021), (73023, 73025), (73027, 73027),
   (73030, 73031), (73056, 73061), (73063, 73064), (73066, 73102),
   (73104, 73105), (73107, 73110), (73112, 73112), (73440, 73462),
   (73648, 73648), (73728, 74649), (74752, 74862), (74880, 75075),
   (77712, 77808), (77824, 78894), (82944, 83526), (92160, 92728),
   (92736, 92766), (92784, 92862), (92880, 92909), (92928, 92975),
   (92992, 92995), (93027, 93047), (93053, 93071), (93760, 93823),
   (93952, 94026), (94031, 94087), (94095, 94111), (94176, 94177),
   (94179, 94179), (94192, 94193), (94208, 100343), (100352, 101589),
   (101632, 101640), (110576, 110579), (110581, 110587), (110589, 110590),
   (110592, 110882), (110928, 110930), (110948, 110951), (110960, 111355),
   (113664, 113770), (113776, 113788), (113792, 113800), (113808, 113817),
   (113822, 113822), (119808, 119892), (119894, 119964), (119966, 119967),
   (119970, 119970), (119973, 119974), (119977, 119980), (119982, 119993),
   (119995, 119995), (119997, 120003), (120005, 120069), (120071, 120074),
   (120077, 120084), (120086, 120092), (120094, 120121), (120123, 120126),
   (120128, 120132), (120134, 120134), (120138, 120144), (120146, 120485),
   (120488, 120512), (120514, 120538), (120540, 120570), (120572, 120596),
   (120598, 120628), (120630, 120654), (120656, 120686), (120688, 120712),
   (120714, 120744), (120746, 120770), (120772, 120779), (122624, 122654),
   (122880, 122886), (122888, 122904), (122907, 122913), (122915, 122916),
   (122918, 122922), (123136, 123180), (123191, 123197), (123214, 123214),
   (123536, 123565), (123584, 123627), (124896, 124902), (124904, 124907),
   (124909, 124910), (124912, 124926), (124928, 125124), (125184, 125251),
   (125255, 125255), (125259, 125259), (126464, 126467), (126469, 126495),
   (126497, 126498), (126500, 126500), (126503, 126503), (126505, 126514),
   (126516, 126519), (126521, 126521), (126523, 126523), (126530, 126530),
   (126535, 126535), (126537, 126537), (126539, 126539), (126541, 126543),
   (126545, 126546), (126548, 126548), (126551, 126551), (126553, 126553),
   (126555, 126555), (126557, 126557), (126559, 126559), (126561, 126562),
   (126564, 126564), (126567, 126570), (126572, 126578), (126580, 126583),
   (126585, 126588), (126590, 126590), (126592, 126601), (126603, 126619),
   (126625, 126627), (126629, 126633), (126635, 126651), (127280, 127305),
   (127312, 127337), (127344, 127369), (131072, 173791), (173824, 177976),
   (177984, 178205), (178208, 183969), (183984, 191456), (194560, 195101),
   (196608, 201546)]

/-- Membership of a scalar value in a list of inclusive ranges. -/
def in_ranges (t : List (Nat × Nat)) (n : Nat) : Bool :=
  t.any (fun p => p.1 ≤ n && n ≤ p.2)

/-- Embeds Rust `char::is_numeric`, used by the `is_numeric` helper of
src/scanner.rs: true exactly for characters in the Unicode general
categories Nd, Nl and No. -/
def rust_is_numeric (c : Char) : Bool :=
  in_ranges unicode_numeric_ranges c.toNat

/-- Embeds Rust `char::is_alphabetic`, used by the `is_alphabetic` helper
of src/scanner.rs: true exactly for characters with the Unicode
`Alphabetic` property.  Note that the letter-number category Nl (for
example the Roman numerals U+2160..U+2182) is contained in both
`Alphabetic` and `char::is_numeric`; the scanner tests `is_numeric`
first. -/
def rust_is_alphabetic (c : Char) : Bool :=
  in_ranges unicode_alphabetic_ranges c.toNat

/-- The ASCII decimal digits: the only characters Rust's
`i32::from_str` accepts after the optional sign. -/
def is_ascii_digit (c : Char) : Bool :=
  48 ≤ c.toNat && c.toNat ≤ 57

/-- Embeds the `equals` predicate factory of src/scanner.rs. -/
def equals (ch : Char) : Char → Bool :=
  fun c => c == ch

/-- Embeds the `is_not_newline` predicate factory of src/scanner.rs. -/
def is_not_newline (c : Char) : Bool :=
  !(c == '\n')

/-- Embeds the `is_not_double_quote` predicate factory of src/scanner.rs. -/
def is_not_double_quote (c : Char) : Bool :=
  !(c == '"')

/-- Embeds `Scanner::consume_while` (src/scanner.rs): repeatedly
`try_eat_next(predicate)` until it fails; the state is the remaining
suffix, so the result is the suffix with the maximal matching run
removed. -/
def consume_while (p : Char → Bool) : List Char → List Char
  | [] => []
  | c :: cs => if p c then consume_while p cs else c :: cs

/-- Embeds the literal-building loops of `Scanner::scan_next_token`
(src/scanner.rs): `while let Some(ch) = self.try_eat_next(pred)` pushes the
matched characters onto the literal.  The first component is the maximal
matching run (the characters eaten), the second the remaining suffix; for
the string branch this also realizes the `self.input[start..end]` slice,
which consists of exactly the characters `consume_while` consumed. -/
def scan_while (p : Char → Bool) : List Char → List Char × List Char
  | [] => ([], [])
  | c :: cs =>
    if p c then
      let r := scan_while p cs
      (c :: r.1, r.2)
    else ([], c :: cs)

/-- Embeds `Scanner::try_eat_next` (src/scanner.rs): if the next character
exists and satisfies the predicate, eat it. -/
def try_eat_next (p : Char → Bool) : List Char → Option Char × List Char
  | [] => (none, [])
  | c :: cs => if p c then (some c, cs) else (none, c :: cs)

/-- Embeds `Scanner::consume_whitespace` (src/scanner.rs). -/
def consume_whitespace (l : List Char) : List Char :=
  consume_while rust_is_whitespace l

/-- Embeds `Scanner::consume_single_line_comment` (src/scanner.rs). -/
def consume_single_line_comment (l : List Char) : List Char :=
  consume_while is_not_newline l

/-- The numeric value of a string of ASCII decimal digits, most significant
digit first. -/
def digits_value (s : List Char) : Nat :=
  s.foldl (fun acc c => 10 * acc + (c.toNat - 48)) 0

/-- The decimal text of a natural number (most significant digit first),
as the claims' phrase "the decimal text of n": the usual base-10 rendering
with ASCII digits.  This is a specification-side definition used to state
the numeric round-trip property. -/
def decimal_text (n : Nat) : List Char :=
  if n < 10 then [Char.ofNat (48 + n)]
  else decimal_text (n / 10) ++ [Char.ofNat (48 + n % 10)]
termination_by n
decreasing_by exact Nat.div_lt_self (by omega) (by omega)

/-- Embeds `literal.parse::<i32>()` from the numeric branch of
`Scanner::scan_next_token` (src/scanner.rs) on the scanned run: Rust's
`i32::from_str` succeeds exactly on a nonempty all-ASCII-digit string whose
value fits the target width; the run scanned here carries no sign, so the
relevant bound is `i32::MAX = 2147483647`.  The scanned run may contain
non-ASCII `is_numeric` characters; `from_str` rejects those (its invalid
digit error), surfacing through the same error channel as overflow. -/
def parse_i32 (s : List Char) : Option Int :=
  if s ≠ [] ∧ s.all is_ascii_digit then
    if digits_value s ≤ 2147483647 then some (Int.ofNat (digits_value s)) else none
  else none

/-- Embeds the keyword `match word.as_str()` table of
`Scanner::scan_next_token` (src/scanner.rs): the sixteen reserved words;
any other word falls through to the `UnrecognizedKeyword` error. -/
def keyword_token (word : List Char) : Option TokenKind :=
  if word = ("and").toList then some .And
  else if word = ("class").toList then some .Class
  else if word = ("else").toList then some .Else
  else if word = ("false").toList then some .False
  else if word = ("for").toList then some .For
  else if word = ("fun").toList then some .Fun
  else if word = ("if").toList then some .If
  else if word = ("nil").toList then some .Nil
  else if word = ("or").toList then some .Or
  else if word = ("print").toList then some .Print
  else if word = ("return").toList then some .Return
  else if word = ("super").toList then some .Super
  else if word = ("this").toList then some .This
  else if word = ("true").toList then some .True
  else if word = ("var").toList then some .Var
  else if word = ("while").toList then some .While
  else none

/-- Embeds the `match ch` dispatch of `Scanner::scan_next_token`
(src/scanner.rs, lines 72-154), after the whitespace skip, with `ch` the
character just eaten by `eat_next` and `rest` the remaining suffix.  The
arms appear in source order; the two guard arms (`ch.is_numeric()`,
`ch.is_alphabetic()`) come after every literal arm, and the wildcard arm
raises `UnrecognizedToken`.  The result pairs the token pushed by
`add_token` (if any; the comment arm pushes none) with the remaining
suffix. -/
def scan_dispatch (ch : Char) (rest : List Char) :
    Except ScanError (Option Token × List Char) :=
  match ch with
  | '(' => .ok (some ⟨.LeftParen⟩, rest)
  | ')' => .ok (some ⟨.RightParen⟩, rest)
  | '{' => .ok (some ⟨.LeftBrace⟩, rest)
  | '}' => .ok (some ⟨.RightBrace⟩, rest)
  | ',' => .ok (some ⟨.Comma⟩, rest)
  | '.' => .ok (some ⟨.Dot⟩, rest)
  | ';' => .ok (some ⟨.Semicolon⟩, rest)
  | '-' => .ok (some ⟨.Minus⟩, rest)
  | '+' => .ok (some ⟨.Plus⟩, rest)
  | '*' => .ok (some ⟨.Star⟩, rest)
  | '/' =>
    (match try_eat_next (equals '/') rest with
     | (some _, rest2) => .ok (none, consume_single_line_comment rest2)
     | (none, rest2) => .ok (some ⟨.Slash⟩, rest2))
  | '!' =>
    (match try_eat_next (equals '=') rest with
     | (some _, rest2) => .ok (some ⟨.BangEqual⟩, rest2)
     | (none, rest2) => .ok (some ⟨.Bang⟩, rest2))
  | '=' =>
    (match try_eat_next (equals '=') rest with
     | (some _, rest2) => .ok (some ⟨.EqualEqual⟩, rest2)
     | (none, rest2) => .ok (some ⟨.Equal⟩, rest2))
  | '<' =>
    (match try_eat_next (equals '=') rest with
     | (some _, rest2) => .ok (some ⟨.LessEqual⟩, rest2)
     | (none, rest2) => .ok (some ⟨.Less⟩, rest2))
  | '>' =>
    (match try_eat_next (equals '=') rest with
     | (some _, rest2) => .ok (some ⟨.GreaterEqual⟩, rest2)
     | (none, rest2) => .ok (some ⟨.Greater⟩, rest2))
  | '"' =>
    (match scan_while is_not_double_quote rest with
     | (_, []) => .error .UnterminatedString
     | (contents, _ :: rest3) => .ok (some ⟨.String contents⟩, rest3))
  | ch =>
    if rust_is_numeric ch then
      match scan_while rust_is_numeric rest with
      | (run, rest2) =>
        match parse_i32 (ch :: run) with
        | some n => .ok (some ⟨.Number n⟩, rest2)
        | none => .error (.NumberParse (ch :: run))
    else if rust_is_alphabetic ch then
      match scan_while rust_is_alphabetic rest with
      | (run, rest2) =>
        match keyword_token (ch :: run) with
        | some k => .ok (some ⟨k⟩, rest2)
        | none => .error (.UnrecognizedKeyword (ch :: run))
    else .error (.UnrecognizedToken ch)

/-- Embeds `Scanner::scan_next_token` (src/scanner.rs): skip whitespace;
if at end, return without a token; otherwise eat one character and
dispatch on it. -/
def scan_next_token (input : List Char) :
    Except ScanError (Option Token × List Char) :=
  match consume_whitespace input with
  | [] => .ok (none, [])
  | ch :: rest => scan_dispatch ch rest

theorem consume_while_eq_dropWhile (p : Char → Bool) (l : List Char) :
    consume_while p l = l.dropWhile p := by
  induction l with
  | nil => rfl
  | cons c cs ih =>
    simp only [consume_while, List.dropWhile]
    cases h : p c <;> simp [h, ih]

theorem scan_while_eq (p : Char → Bool) (l : List Char) :
    scan_while p l = (l.takeWhile p, l.dropWhile p) := by
  induction l with
  | nil => rfl
  | cons c cs ih =>
    simp only [scan_while, List.takeWhile, List.dropWhile]
    cases h : p c <;> simp [h, ih]

theorem try_eat_next_length (p : Char → Bool) (l : List Char)
    (o : Option Char) (l2 : List Char) (h : try_eat_next p l = (o, l2)) :
    l2.length ≤ l.length := by
  cases l with
  | nil => cases h; simp
  | cons c cs =>
    simp only [try_eat_next] at h
    split at h <;> cases h <;> simp

theorem length_dropWhile_le (p : Char → Bool) (l : List Char) :
    (l.dropWhile p).length ≤ l.length := by
  induction l with
  | nil => simp
  | cons c cs ih =>
    simp only [List.dropWhile]
    cases p c <;> simp <;> omega

theorem scan_while_snd_length (p : Char → Bool) (l a b : List Char)
    (h : scan_while p l = (a, b)) : b.length ≤ l.length := by
  rw [scan_while_eq] at h
  cases h
  exact length_dropWhile_le p l

theorem scan_while_snd_cons_length (p : Char → Bool) (l a b : List Char)
    (c : Char) (h : scan_while p l = (a, c :: b)) : b.length < l.length := by
  rw [scan_while_eq] at h
  injection h with e1 e2
  have h2 := length_dropWhile_le p l
  rw [e2] at h2
  simp only [List.length_cons] at h2
  omega

theorem consume_single_line_comment_length (l : List Char) :
    (consume_single_line_comment l).length ≤ l.length := by
  rw [consume_single_line_comment, consume_while_eq_dropWhile]
  exact length_dropWhile_le _ _

theorem parse_i32_nonneg (s : List Char) (n : Int)
    (h : parse_i32 s = some n) : 0 ≤ n := by
  unfold parse_i32 at h
  split at h
  · split at h
    · cases h; exact Int.ofNat_nonneg _
    · cases h
  · cases h

theorem ite_ne_of {c : Prop} [Decidable c] {α : Type} {a b x : α}
    (ha : a ≠ x) (hb : b ≠ x) : (if c then a else b) ≠ x := by
  split
  · exact ha
  · exact hb

theorem keyword_token_ne_eof (w : List Char) :
    keyword_token w ≠ some TokenKind.EndOfFile := by
  unfold keyword_token
  repeat' apply ite_ne_of
  all_goals decide

theorem keyword_token_ne_number (w : List Char) (n : Int) :
    keyword_token w ≠ some (TokenKind.Number n) := by
  unfold keyword_token
  repeat' apply ite_ne_of
  all_goals simp

/-- Every successful dispatch leaves a suffix no longer than the one it was
given. -/
theorem scan_dispatch_length (ch : Char) (rest : List Char)
    (tok : Option Token) (rest2 : List Char)
    (h : scan_dispatch ch rest = .ok (tok, rest2)) :
    rest2.length ≤ rest.length := by
  unfold scan_dispatch at h
  repeat' split at h
  all_goals
    first
    | exact Except.noConfusion h
    | (injection h with h
       injection h with h1 h2
       subst h2
       first
       | exact Nat.le_refl _
       | solve_by_elim [try_eat_next_length, scan_while_snd_length,
           Nat.le_of_lt, Nat.le_trans, consume_single_line_comment_length,
           scan_while_snd_cons_length])

/-- The token pushed by a successful dispatch is never `EndOfFile`, and a
`Number` token always carries a non-negative payload. -/
theorem scan_dispatch_token (ch : Char) (rest : List Char)
    (tok : Option Token) (rest2 : List Char) (t : Token)
    (h : scan_dispatch ch rest = .ok (tok, rest2)) (ht : tok = some t) :
    t.kind ≠ TokenKind.EndOfFile ∧
      ∀ n, t.kind = TokenKind.Number n → 0 ≤ n := by
  subst ht
  unfold scan_dispatch at h
  repeat' split at h
  all_goals (try exact Except.noConfusion h)
  all_goals (injection h with h; injection h with h1 h2)
  all_goals (try exact Option.noConfusion h1)
  all_goals (injection h1 with h1; rw [← h1])
  all_goals (try (refine ⟨?_, ?_⟩ <;> (simp; done)))
  · rename_i n heq
    refine ⟨by simp, fun m hm => ?_⟩
    have hm2 : TokenKind.Number n = TokenKind.Number m := hm
    injection hm2 with e
    rw [← e]
    exact parse_i32_nonneg _ _ heq
  · rename_i k heq
    refine ⟨fun e => ?_, fun m e => ?_⟩
    · have e2 : k = TokenKind.EndOfFile := e
      rw [e2] at heq
      exact keyword_token_ne_eof _ heq
    · have e2 : k = TokenKind.Number m := e
      rw [e2] at heq
      exact absurd heq (keyword_token_ne_number _ _)

/-- Progress: a successful `scan_next_token` either exhausts the input or
strictly shortens it. -/
theorem scan_next_token_progress (input : List Char) (tok : Option Token)
    (rest : List Char) (h : scan_next_token input = .ok (tok, rest)) :
    rest = [] ∨ rest.length < input.length := by
  unfold scan_next_token at h
  cases hc : consume_whitespace input with
  | nil => rw [hc] at h; cases h; exact Or.inl rfl
  | cons ch r0 =>
    rw [hc] at h
    have hlen : r0.length + 1 ≤ input.length := by
      have := length_dropWhile_le rust_is_whitespace input
      rw [consume_whitespace, consume_while_eq_dropWhile] at hc
      rw [hc] at this
      simpa using this
    have := scan_dispatch_length ch r0 tok rest h
    right; omega

deriving instance DecidableEq for Except

/-- Embeds the main loop of `Scanner::scan` (src/scanner.rs, lines 56-64):
repeatedly run `scan_next_token`, propagating its error; when the cursor
reaches the end of the input, push `EndOfFile` and return the accumulated
tokens.  The accumulating `self.tokens` vector is modelled by returning
each iteration's pushed token (`Option.toList`) prepended to the tokens of
the remaining iterations. -/
def scan_loop (input : List Char) : Except ScanError (List Token) :=
  match h : scan_next_token input with
  | .error e => .error e
  | .ok (tok, rest) =>
    if h2 : rest = [] then .ok (tok.toList ++ [⟨.EndOfFile⟩])
    else
      match scan_loop rest with
      | .error e => .error e
      | .ok ts => .ok (tok.toList ++ ts)
termination_by input.length
decreasing_by
  rcases scan_next_token_progress input tok rest h with h3 | h3
  · exact absurd h3 h2
  · exact h3

/-- Embeds the public `scan` function of src/scanner.rs:
`Scanner::new(input).scan()`, where `new` collects the characters of the
input string. -/
def scan (input : String) : Except ScanError (List Token) :=
  scan_loop input.toList

theorem scan_loop_eq_error (input : List Char) (e : ScanError)
    (h : scan_next_token input = .error e) : scan_loop input = .error e := by
  unfold scan_loop
  split
  · rename_i e2 he
    rw [h] at he
    injection he with he
    rw [he]
  · rename_i tok rest he
    rw [h] at he
    exact Except.noConfusion he

theorem scan_loop_eq_done (input : List Char) (tok : Option Token)
    (h : scan_next_token input = .ok (tok, [])) :
    scan_loop input = .ok (tok.toList ++ [⟨.EndOfFile⟩]) := by
  unfold scan_loop
  split
  · rename_i e2 he
    rw [h] at he
    exact Except.noConfusion he
  · rename_i tok2 rest he
    rw [h] at he
    injection he with he
    injection he with he1 he2
    subst he1
    rw [dif_pos he2.symm]

theorem scan_loop_eq_step (input : List Char) (tok : Option Token)
    (rest : List Char) (ts : List Token)
    (h : scan_next_token input = .ok (tok, rest)) (h2 : rest ≠ [])
    (h3 : scan_loop rest = .ok ts) :
    scan_loop input = .ok (tok.toList ++ ts) := by
  unfold scan_loop
  split
  · rename_i e2 he
    rw [h] at he
    exact Except.noConfusion he
  · rename_i tok2 rest2 he
    rw [h] at he
    injection he with he
    injection he with he1 he2
    subst he1
    subst he2
    rw [dif_neg h2, h3]

theorem scan_loop_eq_step_error (input : List Char) (tok : Option Token)
    (rest : List Char) (e : ScanError)
    (h : scan_next_token input = .ok (tok, rest)) (h2 : rest ≠ [])
    (h3 : scan_loop rest = .error e) :
    scan_loop input = .error e := by
  unfold scan_loop
  split
  · rename_i e2 he
    rw [h] at he
    exact Except.noConfusion he
  · rename_i tok2 rest2 he
    rw [h] at he
    injection he with he
    injection he with he1 he2
    subst he1
    subst he2
    rw [dif_neg h2, h3]


/-- No Unicode whitespace character has the Alphabetic property: checked
by enumerating the whitespace scalar values and evaluating the range
table at each. -/
theorem ws_not_alpha (c : Char) (h : rust_is_whitespace c = true) :
    rust_is_alphabetic c = false := by
  rw [Bool.eq_false_iff]
  intro ha
  rw [rust_is_alphabetic] at ha
  simp only [rust_is_whitespace, Bool.or_eq_true, Bool.and_eq_true,
    decide_eq_true_eq] at h
  have hvals : c.toNat = 9 ∨
      c.toNat = 10 ∨
      c.toNat = 11 ∨
      c.toNat = 12 ∨
      c.toNat = 13 ∨
      c.toNat = 32 ∨
      c.toNat = 133 ∨
      c.toNat = 160 ∨
      c.toNat = 5760 ∨
      c.toNat = 8192 ∨
      c.toNat = 8193 ∨
      c.toNat = 8194 ∨
      c.toNat = 8195 ∨
      c.toNat = 8196 ∨
      c.toNat = 8197 ∨
      c.toNat = 8198 ∨
      c.toNat = 8199 ∨
      c.toNat = 8200 ∨
      c.toNat = 8201 ∨
      c.toNat = 8202 ∨
      c.toNat = 8232 ∨
      c.toNat = 8233 ∨
      c.toNat = 8239 ∨
      c.toNat = 8287 ∨
      c.toNat = 12288 := by omega
  rcases hvals with e|e|e|e|e|e|e|e|e|e|e|e|e|e|e|e|e|e|e|e|e|e|e|e|e <;> rw [e] at ha <;> exact absurd ha (by decide)

/-- No Unicode whitespace character is in the numeric categories. -/
theorem ws_not_numeric (c : Char) (h : rust_is_whitespace c = true) :
    rust_is_numeric c = false := by
  rw [Bool.eq_false_iff]
  intro ha
  rw [rust_is_numeric] at ha
  simp only [rust_is_whitespace, Bool.or_eq_true, Bool.and_eq_true,
    decide_eq_true_eq] at h
  have hvals : c.toNat = 9 ∨
      c.toNat = 10 ∨
      c.toNat = 11 ∨
      c.toNat = 12 ∨
      c.toNat = 13 ∨
      c.toNat = 32 ∨
      c.toNat = 133 ∨
      c.toNat = 160 ∨
      c.toNat = 5760 ∨
      c.toNat = 8192 ∨
      c.toNat = 8193 ∨
      c.toNat = 8194 ∨
      c.toNat = 8195 ∨
      c.toNat = 8196 ∨
      c.toNat = 8197 ∨
      c.toNat = 8198 ∨
      c.toNat = 8199 ∨
      c.toNat = 8200 ∨
      c.toNat = 8201 ∨
      c.toNat = 8202 ∨
      c.toNat = 8232 ∨
      c.toNat = 8233 ∨
      c.toNat = 8239 ∨
      c.toNat = 8287 ∨
      c.toNat = 12288 := by omega
  rcases hvals with e|e|e|e|e|e|e|e|e|e|e|e|e|e|e|e|e|e|e|e|e|e|e|e|e <;> rw [e] at ha <;> exact absurd ha (by decide)

theorem alpha_not_ws (c : Char) (h : rust_is_alphabetic c = true) :
    rust_is_whitespace c = false := by
  cases hw : rust_is_whitespace c with
  | false => rfl
  | true =>
    rw [ws_not_alpha c hw] at h
    exact Bool.noConfusion h

theorem digit_not_ws (c : Char) (h : rust_is_numeric c = true) :
    rust_is_whitespace c = false := by
  cases hw : rust_is_whitespace c with
  | false => rfl
  | true =>
    rw [ws_not_numeric c hw] at h
    exact Bool.noConfusion h

/-- Every ASCII digit is in the Nd category (the table's first range). -/
theorem ascii_digit_numeric (c : Char) (h : is_ascii_digit c = true) :
    rust_is_numeric c = true := by
  simp only [is_ascii_digit, Bool.and_eq_true, decide_eq_true_eq] at h
  rw [rust_is_numeric]
  unfold in_ranges
  apply List.any_eq_true.mpr
  refine ⟨(48, 57), by decide, ?_⟩
  simp only [Bool.and_eq_true, decide_eq_true_eq]
  omega

theorem ws_char_ne (c d : Char) (h : rust_is_whitespace c = true)
    (hd : rust_is_whitespace d = false) : c ≠ d := by
  intro e
  subst e
  rw [h] at hd
  exact Bool.noConfusion hd

theorem takeWhile_append_all (p : Char → Bool) (l x : List Char)
    (h : ∀ c ∈ l, p c = true) :
    (l ++ x).takeWhile p = l ++ x.takeWhile p := by
  induction l with
  | nil => simp
  | cons c cs ih =>
    have hc := h c (List.mem_cons_self c cs)
    simp only [List.cons_append, List.takeWhile_cons, hc, if_true]
    rw [ih (fun d hd => h d (List.mem_cons_of_mem _ hd))]

theorem dropWhile_append_all (p : Char → Bool) (l x : List Char)
    (h : ∀ c ∈ l, p c = true) :
    (l ++ x).dropWhile p = x.dropWhile p := by
  induction l with
  | nil => simp
  | cons c cs ih =>
    have hc := h c (List.mem_cons_self c cs)
    simp only [List.cons_append, List.dropWhile_cons, hc, if_true]
    exact ih (fun d hd => h d (List.mem_cons_of_mem _ hd))

theorem takeWhile_append_of_stop (p : Char → Bool) (l x : List Char)
    (h : l.dropWhile p ≠ []) :
    (l ++ x).takeWhile p = l.takeWhile p := by
  induction l with
  | nil => simp at h
  | cons c cs ih =>
    cases hc : p c with
    | true =>
      simp only [List.dropWhile_cons, hc, if_true] at h
      simp only [List.cons_append, List.takeWhile_cons, hc, if_true]
      rw [ih h]
    | false =>
      simp [List.takeWhile_cons, hc]

theorem dropWhile_append_of_stop (p : Char → Bool) (l x : List Char)
    (h : l.dropWhile p ≠ []) :
    (l ++ x).dropWhile p = l.dropWhile p ++ x := by
  induction l with
  | nil => simp at h
  | cons c cs ih =>
    cases hc : p c with
    | true =>
      simp only [List.dropWhile_cons, hc, if_true] at h
      simp only [List.cons_append, List.dropWhile_cons, hc, if_true]
      exact ih h
    | false =>
      simp [List.dropWhile_cons, hc]

theorem consume_whitespace_all (l : List Char)
    (h : ∀ c ∈ l, rust_is_whitespace c = true) : consume_whitespace l = [] := by
  rw [consume_whitespace, consume_while_eq_dropWhile]
  exact List.dropWhile_eq_nil_iff.mpr h

theorem consume_whitespace_cons (c : Char) (l : List Char)
    (h : rust_is_whitespace c = false) :
    consume_whitespace (c :: l) = c :: l := by
  simp [consume_whitespace, consume_while, h]

theorem scan_while_all (p : Char → Bool) (l : List Char)
    (h : ∀ c ∈ l, p c = true) : scan_while p l = (l, []) := by
  rw [scan_while_eq, List.takeWhile_eq_self_iff.mpr h,
    List.dropWhile_eq_nil_iff.mpr h]

/-- Forward characterization of the numeric guard arm of the dispatch. -/
theorem scan_dispatch_numeric (ch : Char) (rest : List Char)
    (h : rust_is_numeric ch = true) :
    scan_dispatch ch rest =
      match scan_while rust_is_numeric rest with
      | (run, rest2) =>
        match parse_i32 (ch :: run) with
        | some n => .ok (some ⟨.Number n⟩, rest2)
        | none => .error (.NumberParse (ch :: run)) := by
  unfold scan_dispatch
  split
  rotate_right 1
  · rw [if_pos h]
  all_goals exact absurd h (by decide)

/-- Forward characterization of the alphabetic guard arm of the dispatch.
Because the scanner tests `is_numeric` first, this arm is reached only
when the character is not numeric (Nl characters are both). -/
theorem scan_dispatch_alpha (ch : Char) (rest : List Char)
    (h : rust_is_alphabetic ch = true) (hnum : rust_is_numeric ch = false) :
    scan_dispatch ch rest =
      match scan_while rust_is_alphabetic rest with
      | (run, rest2) =>
        match keyword_token (ch :: run) with
        | some k => .ok (some ⟨k⟩, rest2)
        | none => .error (.UnrecognizedKeyword (ch :: run)) := by
  unfold scan_dispatch
  split
  rotate_right 1
  · rw [if_neg, if_pos h]
    rw [hnum]
    exact Bool.false_ne_true
  all_goals exact absurd h (by decide)

/-- Forward characterization of the wildcard arm of the dispatch. -/
theorem scan_dispatch_other (ch : Char) (rest : List Char)
    (hlit : ch ∉ ['(', ')', '{', '}', ',', '.', ';', '-', '+', '*', '/', '!',
      '=', '<', '>', '"'])
    (h2 : rust_is_numeric ch = false) (h3 : rust_is_alphabetic ch = false) :
    scan_dispatch ch rest = .error (.UnrecognizedToken ch) := by
  unfold scan_dispatch
  split
  rotate_right 1
  · rw [if_neg, if_neg]
    · rw [h3]
      exact Bool.false_ne_true
    · rw [h2]
      exact Bool.false_ne_true
  all_goals exact absurd (by decide) hlit

theorem scan_next_token_token (input : List Char) (tok : Option Token)
    (rest : List Char) (t : Token)
    (h : scan_next_token input = .ok (tok, rest)) (ht : tok = some t) :
    t.kind ≠ TokenKind.EndOfFile ∧
      ∀ n, t.kind = TokenKind.Number n → 0 ≤ n := by
  unfold scan_next_token at h
  cases hc : consume_whitespace input with
  | nil =>
    rw [hc] at h
    injection h with h
    injection h with h1 h2
    rw [ht] at h1
    exact Option.noConfusion h1
  | cons ch r0 =>
    rw [hc] at h
    exact scan_dispatch_token ch r0 tok rest t h ht

/-- The shape of every successful scan: the token list is a possibly empty
list of non-`EndOfFile` tokens (whose `Number` payloads are non-negative)
followed by exactly one `EndOfFile`. -/
theorem scan_loop_shape_aux (n : Nat) : ∀ (input : List Char),
    input.length ≤ n → ∀ ts, scan_loop input = .ok ts →
    ∃ ts0, ts = ts0 ++ [⟨.EndOfFile⟩] ∧
      ∀ t ∈ ts0, t.kind ≠ TokenKind.EndOfFile ∧
        ∀ m, t.kind = TokenKind.Number m → 0 ≤ m := by
  induction n with
  | zero =>
    intro input hle ts h
    have hnil : input = [] := List.length_eq_zero.mp (Nat.le_zero.mp hle)
    subst hnil
    have h1 : scan_next_token [] = .ok (none, []) := by decide
    rw [scan_loop_eq_done _ _ h1] at h
    injection h with h
    subst h
    exact ⟨[], rfl, fun t ht => absurd ht (List.not_mem_nil t)⟩
  | succ n ih =>
    intro input hle ts h
    cases hsnt : scan_next_token input with
    | error e =>
      rw [scan_loop_eq_error _ _ hsnt] at h
      exact Except.noConfusion h
    | ok pr =>
      obtain ⟨tok, rest⟩ := pr
      have htokfact : ∀ t ∈ tok.toList, t.kind ≠ TokenKind.EndOfFile ∧
          ∀ m, t.kind = TokenKind.Number m → 0 ≤ m := by
        intro t ht
        cases tok with
        | none => exact absurd ht (List.not_mem_nil t)
        | some t2 =>
          have he : t = t2 := List.mem_singleton.mp ht
          subst he
          exact scan_next_token_token input _ rest t hsnt rfl
      by_cases hr : rest = []
      · subst hr
        rw [scan_loop_eq_done _ _ hsnt] at h
        injection h with h
        subst h
        exact ⟨tok.toList, rfl, htokfact⟩
      · have hrl : rest.length < input.length := by
          rcases scan_next_token_progress input tok rest hsnt with h3 | h3
          · exact absurd h3 hr
          · exact h3
        cases hrec : scan_loop rest with
        | error e =>
          rw [scan_loop_eq_step_error _ _ _ _ hsnt hr hrec] at h
          exact Except.noConfusion h
        | ok ts2 =>
          rw [scan_loop_eq_step _ _ _ _ hsnt hr hrec] at h
          injection h with h
          subst h
          obtain ⟨ts0, hts0, hall⟩ := ih rest (by omega) ts2 hrec
          refine ⟨tok.toList ++ ts0, by rw [hts0, List.append_assoc], ?_⟩
          intro t ht
          rcases List.mem_append.mp ht with h4 | h4
          · exact htokfact t h4
          · exact hall t h4

theorem scan_loop_shape (input : List Char) (ts : List Token)
    (h : scan_loop input = .ok ts) :
    ∃ ts0, ts = ts0 ++ [⟨.EndOfFile⟩] ∧
      ∀ t ∈ ts0, t.kind ≠ TokenKind.EndOfFile ∧
        ∀ m, t.kind = TokenKind.Number m → 0 ≤ m :=
  scan_loop_shape_aux input.length input (Nat.le_refl _) ts h

/-- C1: for every finite input, `scan` either returns an error or returns a
token sequence whose last element is `EndOfFile` and in which `EndOfFile`
occurs at no other position. -/
theorem claim_C1 (input : String) (ts : List Token)
    (h : scan input = .ok ts) :
    ∃ ts0, ts = ts0 ++ [⟨.EndOfFile⟩] ∧ (⟨.EndOfFile⟩ : Token) ∉ ts0 := by
  obtain ⟨ts0, hts, hall⟩ := scan_loop_shape input.toList ts h
  exact ⟨ts0, hts, fun hm => (hall _ hm).1 rfl⟩

theorem claim_C1_witness :
    scan ("1") = .ok [⟨.Number 1⟩, ⟨.EndOfFile⟩] ∧
      ∃ ts0, ([⟨.Number 1⟩, ⟨.EndOfFile⟩] : List Token) = ts0 ++ [⟨.EndOfFile⟩] ∧
        (⟨.EndOfFile⟩ : Token) ∉ ts0 := by
  have h : scan ("1") = .ok [⟨.Number 1⟩, ⟨.EndOfFile⟩] :=
    scan_loop_eq_done ("1").toList (some ⟨.Number 1⟩) (by decide)
  exact ⟨h, claim_C1 ("1") _ h⟩

/-- C8: scan terminates on every finite input; every iteration of the main
scanning loop either advances the cursor by at least one position (here:
strictly shortens the remaining input) or is the terminal iteration, after
which the loop emits `EndOfFile`. -/
theorem claim_C8 (input : List Char) (tok : Option Token) (rest : List Char)
    (h : scan_next_token input = .ok (tok, rest)) :
    rest.length < input.length ∨
      (rest = [] ∧ scan_loop input = .ok (tok.toList ++ [⟨.EndOfFile⟩])) := by
  by_cases hr : rest = []
  · exact Or.inr ⟨hr, scan_loop_eq_done _ _ (hr ▸ h)⟩
  · rcases scan_next_token_progress input tok rest h with h3 | h3
    · exact absurd h3 hr
    · exact Or.inl h3

theorem claim_C8_witness :
    scan_next_token ['1'] = .ok (some ⟨.Number 1⟩, []) ∧
      (([] : List Char).length < [('1' : Char)].length ∨
        (([] : List Char) = [] ∧
          scan_loop ['1'] = .ok ((some ⟨.Number 1⟩).toList ++ [⟨.EndOfFile⟩]))) := by
  have h : scan_next_token ['1'] = .ok (some ⟨.Number 1⟩, []) := by decide
  exact ⟨h, claim_C8 ['1'] _ _ h⟩

/-- C9: every `Number` token in any successful scan result carries a
non-negative value, and scanning the text consisting of a minus sign
followed by the digit five produces a `Minus` token followed by a positive
`Number` literal rather than a negative literal. -/
theorem claim_C9 :
    (∀ (input : String) (ts : List Token), scan input = .ok ts →
      ∀ t ∈ ts, ∀ n, t.kind = TokenKind.Number n → 0 ≤ n) ∧
    scan ("-5") = .ok [⟨.Minus⟩, ⟨.Number 5⟩, ⟨.EndOfFile⟩] := by
  constructor
  · intro input ts h t ht n hn
    obtain ⟨ts0, hts, hall⟩ := scan_loop_shape input.toList ts h
    subst hts
    rcases List.mem_append.mp ht with h4 | h4
    · exact (hall t h4).2 n hn
    · have he : t = ⟨.EndOfFile⟩ := List.mem_singleton.mp h4
      subst he
      exact absurd hn (by simp)
  · have s1 : scan_next_token ("-5").toList = .ok (some ⟨.Minus⟩, ['5']) := by
      decide
    have s2 : scan_next_token ['5'] = .ok (some ⟨.Number 5⟩, []) := by decide
    exact scan_loop_eq_step _ _ _ _ s1 (by decide)
      (scan_loop_eq_done ['5'] (some ⟨.Number 5⟩) s2)

theorem claim_C9_witness :
    scan ("5") = .ok [⟨.Number 5⟩, ⟨.EndOfFile⟩] ∧ (0 : Int) ≤ 5 := by
  have h : scan ("5") = .ok [⟨.Number 5⟩, ⟨.EndOfFile⟩] :=
    scan_loop_eq_done ("5").toList (some ⟨.Number 5⟩) (by decide)
  exact ⟨h, claim_C9.1 ("5") _ h ⟨.Number 5⟩ (by decide) 5 rfl⟩

theorem digits_value_append_digit (xs : List Char) (c : Char) :
    digits_value (xs ++ [c]) = 10 * digits_value xs + (c.toNat - 48) := by
  unfold digits_value
  rw [List.foldl_append]
  rfl

theorem char_ofNat_digit_toNat (d : Nat) (h : d ≤ 9) :
    (Char.ofNat (48 + d)).toNat = 48 + d := by
  unfold Char.ofNat
  rw [dif_pos]
  · rfl
  · exact Or.inl (by omega)

theorem decimal_text_all_digits (n : Nat) :
    ∀ c ∈ decimal_text n, is_ascii_digit c = true := by
  induction n using Nat.strong_induction_on with
  | _ n ih =>
    unfold decimal_text
    split
    · intro c hc
      have he : c = Char.ofNat (48 + n) := List.mem_singleton.mp hc
      subst he
      simp only [is_ascii_digit, Bool.and_eq_true, decide_eq_true_eq,
        char_ofNat_digit_toNat n (by omega)]
      omega
    · intro c hc
      rcases List.mem_append.mp hc with h1 | h1
      · exact ih (n / 10) (Nat.div_lt_self (by omega) (by omega)) c h1
      · have he : c = Char.ofNat (48 + n % 10) := List.mem_singleton.mp h1
        subst he
        simp only [is_ascii_digit, Bool.and_eq_true, decide_eq_true_eq,
          char_ofNat_digit_toNat (n % 10) (by omega)]
        omega

theorem decimal_text_ne_nil (n : Nat) : decimal_text n ≠ [] := by
  unfold decimal_text
  split
  · simp
  · simp

theorem digits_value_decimal_text (n : Nat) :
    digits_value (decimal_text n) = n := by
  induction n using Nat.strong_induction_on with
  | _ n ih =>
    unfold decimal_text
    split
    · rename_i h
      simp only [digits_value, List.foldl_cons, List.foldl_nil,
        char_ofNat_digit_toNat n (by omega)]
      omega
    · rename_i h
      rw [digits_value_append_digit,
        ih (n / 10) (Nat.div_lt_self (by omega) (by omega)),
        char_ofNat_digit_toNat (n % 10) (by omega)]
      omega

theorem parse_i32_done (s : List Char) (hne : s ≠ [])
    (hall : ∀ x ∈ s, is_ascii_digit x = true)
    (hle : digits_value s ≤ 2147483647) :
    parse_i32 s = some (Int.ofNat (digits_value s)) := by
  unfold parse_i32
  rw [if_pos ⟨hne, List.all_eq_true.mpr hall⟩, if_pos hle]

theorem parse_i32_overflow (s : List Char) (hne : s ≠ [])
    (hall : ∀ x ∈ s, is_ascii_digit x = true)
    (hgt : 2147483647 < digits_value s) : parse_i32 s = none := by
  unfold parse_i32
  rw [if_pos ⟨hne, List.all_eq_true.mpr hall⟩, if_neg (by omega)]

theorem parse_i32_not_ascii (s : List Char)
    (h : s.all is_ascii_digit = false) : parse_i32 s = none := by
  unfold parse_i32
  rw [if_neg (fun hc => by rw [hc.2] at h; exact Bool.noConfusion h)]

theorem scan_next_token_digits (c : Char) (cs : List Char)
    (hc : rust_is_numeric c = true)
    (hcs : ∀ x ∈ cs, rust_is_numeric x = true) :
    scan_next_token (c :: cs) =
      match parse_i32 (c :: cs) with
      | some n => .ok (some ⟨.Number n⟩, [])
      | none => .error (.NumberParse (c :: cs)) := by
  unfold scan_next_token
  rw [consume_whitespace_cons _ _ (digit_not_ws _ hc)]
  show scan_dispatch c cs = _
  rw [scan_dispatch_numeric _ _ hc, scan_while_all _ _ hcs]

theorem scan_next_token_word (c : Char) (cs : List Char)
    (hc : rust_is_alphabetic c = true) (hnum : rust_is_numeric c = false)
    (hcs : ∀ x ∈ cs, rust_is_alphabetic x = true) :
    scan_next_token (c :: cs) =
      match keyword_token (c :: cs) with
      | some k => .ok (some ⟨k⟩, [])
      | none => .error (.UnrecognizedKeyword (c :: cs)) := by
  unfold scan_next_token
  rw [consume_whitespace_cons _ _ (alpha_not_ws _ hc)]
  show scan_dispatch c cs = _
  rw [scan_dispatch_alpha _ _ hc hnum, scan_while_all _ _ hcs]

/-- C3: for every non-negative integer representable as a 32-bit signed
integer, scanning its decimal text yields that `Number` literal followed by
`EndOfFile`; scanning the text 2147483647 succeeds; and scanning a digit
run whose value exceeds the 32-bit signed range fails with the overflow
error through the same error channel. -/
theorem claim_C3 :
    (∀ n : Nat, n ≤ 2147483647 →
      scan (String.mk (decimal_text n)) =
        .ok [⟨.Number (Int.ofNat n)⟩, ⟨.EndOfFile⟩]) ∧
    scan ("2147483647") = .ok [⟨.Number 2147483647⟩, ⟨.EndOfFile⟩] ∧
    (∀ ds : List Char, ds ≠ [] → (∀ x ∈ ds, rust_is_numeric x = true) →
      2147483647 < digits_value ds →
      scan (String.mk ds) = .error (.NumberParse ds)) := by
  refine ⟨?_, ?_, ?_⟩
  · intro n hle
    cases hd : decimal_text n with
    | nil => exact absurd hd (decimal_text_ne_nil n)
    | cons c cs =>
      have hall := decimal_text_all_digits n
      rw [hd] at hall
      have hnum : ∀ x ∈ c :: cs, rust_is_numeric x = true :=
        fun x hx => ascii_digit_numeric x (hall x hx)
      have hval : digits_value (c :: cs) = n := by
        rw [← hd, digits_value_decimal_text]
      have h1 : scan_next_token (c :: cs) =
          .ok (some ⟨.Number (Int.ofNat n)⟩, []) := by
        rw [scan_next_token_digits c cs (hnum c (List.mem_cons_self c cs))
          (fun x hx => hnum x (List.mem_cons_of_mem _ hx))]
        rw [parse_i32_done (c :: cs) (by simp) hall (by omega), hval]
      exact scan_loop_eq_done (c :: cs) (some ⟨.Number (Int.ofNat n)⟩) h1
  · exact scan_loop_eq_done ("2147483647").toList
      (some ⟨.Number 2147483647⟩) (by decide)
  · intro ds hne hall hgt
    cases ds with
    | nil => exact absurd rfl hne
    | cons c cs =>
      apply scan_loop_eq_error
      show scan_next_token (c :: cs) = _
      rw [scan_next_token_digits c cs (hall c (List.mem_cons_self c cs))
        (fun x hx => hall x (List.mem_cons_of_mem _ hx))]
      cases hascii : (c :: cs).all is_ascii_digit with
      | true =>
        rw [parse_i32_overflow (c :: cs) hne
          (List.all_eq_true.mp hascii) hgt]
      | false =>
        rw [parse_i32_not_ascii (c :: cs) hascii]

theorem claim_C3_witness :
    (42 : Nat) ≤ 2147483647 ∧
      scan (String.mk (decimal_text 42)) =
        .ok [⟨.Number (Int.ofNat 42)⟩, ⟨.EndOfFile⟩] ∧
      (['2', '1', '4', '7', '4', '8', '3', '6', '4', '8'] : List Char) ≠ [] ∧
      2147483647 < digits_value ['2', '1', '4', '7', '4', '8', '3', '6', '4', '8'] ∧
      scan (String.mk ['2', '1', '4', '7', '4', '8', '3', '6', '4', '8']) =
        .error (.NumberParse ['2', '1', '4', '7', '4', '8', '3', '6', '4', '8']) := by
  refine ⟨by decide, claim_C3.1 42 (by decide), by decide, by decide, ?_⟩
  exact claim_C3.2.2 ['2', '1', '4', '7', '4', '8', '3', '6', '4', '8']
    (by decide) (by decide) (by decide)

/-- C2 (amended): every word of the fixed sixteen-entry keyword table
scans to its dedicated token followed by `EndOfFile`, and every other
maximal alphabetic run whose first character is not also numeric fails
with an `UnrecognizedKeyword` error carrying the full run (there is no
generic identifier token).  The first-character restriction is forced by
the Unicode letter-number characters (category Nl, e.g. Roman numerals),
which are both alphabetic and numeric: the scanner tests `is_numeric`
first, so such a run takes the number branch and fails through the
number-parse channel instead. -/
theorem claim_C2 :
    (scan ("and") = .ok [⟨.And⟩, ⟨.EndOfFile⟩] ∧
     scan ("class") = .ok [⟨.Class⟩, ⟨.EndOfFile⟩] ∧
     scan ("else") = .ok [⟨.Else⟩, ⟨.EndOfFile⟩] ∧
     scan ("false") = .ok [⟨.False⟩, ⟨.EndOfFile⟩] ∧
     scan ("for") = .ok [⟨.For⟩, ⟨.EndOfFile⟩] ∧
     scan ("fun") = .ok [⟨.Fun⟩, ⟨.EndOfFile⟩] ∧
     scan ("if") = .ok [⟨.If⟩, ⟨.EndOfFile⟩] ∧
     scan ("nil") = .ok [⟨.Nil⟩, ⟨.EndOfFile⟩] ∧
     scan ("or") = .ok [⟨.Or⟩, ⟨.EndOfFile⟩] ∧
     scan ("print") = .ok [⟨.Print⟩, ⟨.EndOfFile⟩] ∧
     scan ("return") = .ok [⟨.Return⟩, ⟨.EndOfFile⟩] ∧
     scan ("super") = .ok [⟨.Super⟩, ⟨.EndOfFile⟩] ∧
     scan ("this") = .ok [⟨.This⟩, ⟨.EndOfFile⟩] ∧
     scan ("true") = .ok [⟨.True⟩, ⟨.EndOfFile⟩] ∧
     scan ("var") = .ok [⟨.Var⟩, ⟨.EndOfFile⟩] ∧
     scan ("while") = .ok [⟨.While⟩, ⟨.EndOfFile⟩]) ∧
    (∀ (c : Char) (cs : List Char), rust_is_alphabetic c = true →
      rust_is_numeric c = false →
      (∀ x ∈ cs, rust_is_alphabetic x = true) →
      keyword_token (c :: cs) = none →
      scan (String.mk (c :: cs)) = .error (.UnrecognizedKeyword (c :: cs))) := by
  constructor
  · exact ⟨scan_loop_eq_done ("and").toList (some ⟨.And⟩) (by decide),
      scan_loop_eq_done ("class").toList (some ⟨.Class⟩) (by decide),
      scan_loop_eq_done ("else").toList (some ⟨.Else⟩) (by decide),
      scan_loop_eq_done ("false").toList (some ⟨.False⟩) (by decide),
      scan_loop_eq_done ("for").toList (some ⟨.For⟩) (by decide),
      scan_loop_eq_done ("fun").toList (some ⟨.Fun⟩) (by decide),
      scan_loop_eq_done ("if").toList (some ⟨.If⟩) (by decide),
      scan_loop_eq_done ("nil").toList (some ⟨.Nil⟩) (by decide),
      scan_loop_eq_done ("or").toList (some ⟨.Or⟩) (by decide),
      scan_loop_eq_done ("print").toList (some ⟨.Print⟩) (by decide),
      scan_loop_eq_done ("return").toList (some ⟨.Return⟩) (by decide),
      scan_loop_eq_done ("super").toList (some ⟨.Super⟩) (by decide),
      scan_loop_eq_done ("this").toList (some ⟨.This⟩) (by decide),
      scan_loop_eq_done ("true").toList (some ⟨.True⟩) (by decide),
      scan_loop_eq_done ("var").toList (some ⟨.Var⟩) (by decide),
      scan_loop_eq_done ("while").toList (some ⟨.While⟩) (by decide)⟩
  · intro c cs hc hnum hcs hkw
    apply scan_loop_eq_error
    show scan_next_token (c :: cs) = _
    rw [scan_next_token_word c cs hc hnum hcs, hkw]

/-- C2 counterexample: the Roman numeral U+2160 is a maximal alphabetic
run (Rust's `char::is_alphabetic` is true on it, the Alphabetic property
contains the letter-number category Nl) that is not in the keyword table,
yet scanning it does not fail with `UnrecognizedKeyword`: letter-numbers
are also `is_numeric`, that guard is tested first, and `parse::<i32>`
rejects the character, so the scan fails through the number-parse
channel. -/
theorem claim_C2_counterexample :
    rust_is_alphabetic '\u2160' = true ∧
    rust_is_numeric '\u2160' = true ∧
    keyword_token ['\u2160'] = none ∧
    scan (String.mk ['\u2160']) = .error (.NumberParse ['\u2160']) ∧
    scan (String.mk ['\u2160']) ≠
      .error (.UnrecognizedKeyword ['\u2160']) := by
  have h : scan (String.mk ['\u2160']) = .error (.NumberParse ['\u2160']) :=
    scan_loop_eq_error ['\u2160'] _ (by decide)
  refine ⟨by decide, by decide, by decide, h, fun he => ?_⟩
  rw [h] at he
  injection he with he
  exact ScanError.noConfusion he

theorem claim_C2_witness :
    rust_is_alphabetic 'd' = true ∧ rust_is_numeric 'd' = false ∧
      keyword_token ['d'] = none ∧
      scan (String.mk ['d']) = .error (.UnrecognizedKeyword ['d']) := by
  refine ⟨by decide, by decide, by decide, ?_⟩
  exact claim_C2.2 'd' [] (by decide) (by decide)
    (fun x hx => absurd hx (List.not_mem_nil x)) (by decide)

theorem scan_dispatch_quote (rest : List Char) :
    scan_dispatch '"' rest =
      match scan_while is_not_double_quote rest with
      | (_, []) => .error .UnterminatedString
      | (contents, _ :: rest3) => .ok (some ⟨.String contents⟩, rest3) := rfl

theorem not_double_quote_all (cs : List Char) (h : ('"' : Char) ∉ cs) :
    ∀ x ∈ cs, is_not_double_quote x = true := by
  intro x hx
  have hne : x ≠ '"' := fun e => h (e ▸ hx)
  simp [is_not_double_quote, hne]

theorem scan_next_token_string_ok (cs : List Char) (h : ('"' : Char) ∉ cs) :
    scan_next_token ('"' :: (cs ++ ['"'])) = .ok (some ⟨.String cs⟩, []) := by
  unfold scan_next_token
  rw [consume_whitespace_cons _ _ (by decide)]
  show scan_dispatch '"' (cs ++ ['"']) = _
  rw [scan_dispatch_quote]
  have hsw : scan_while is_not_double_quote (cs ++ ['"']) = (cs, ['"']) := by
    rw [scan_while_eq, takeWhile_append_all _ _ _ (not_double_quote_all cs h),
      dropWhile_append_all _ _ _ (not_double_quote_all cs h)]
    rw [show List.takeWhile is_not_double_quote ['"'] = [] from by decide,
      show List.dropWhile is_not_double_quote ['"'] = ['"'] from by decide]
    simp
  rw [hsw]

theorem scan_next_token_string_unterminated (cs : List Char)
    (h : ('"' : Char) ∉ cs) :
    scan_next_token ('"' :: cs) = .error .UnterminatedString := by
  unfold scan_next_token
  rw [consume_whitespace_cons _ _ (by decide)]
  show scan_dispatch '"' cs = _
  rw [scan_dispatch_quote, scan_while_all _ _ (not_double_quote_all cs h)]

/-- C4: on a leading double quote, `scan` consumes characters up to the
next double quote; if end of input is reached first it fails with the
unterminated-string error, and otherwise it emits a `String` token whose
text is exactly the characters strictly between the two quotes, with no
escape processing. -/
theorem claim_C4 :
    (∀ cs : List Char, ('"' : Char) ∉ cs →
      scan (String.mk ('"' :: (cs ++ ['"']))) =
        .ok [⟨.String cs⟩, ⟨.EndOfFile⟩]) ∧
    (∀ cs : List Char, ('"' : Char) ∉ cs →
      scan (String.mk ('"' :: cs)) = .error .UnterminatedString) := by
  constructor
  · intro cs h
    exact scan_loop_eq_done ('"' :: (cs ++ ['"'])) (some ⟨.String cs⟩)
      (scan_next_token_string_ok cs h)
  · intro cs h
    exact scan_loop_eq_error ('"' :: cs) _
      (scan_next_token_string_unterminated cs h)

theorem claim_C4_witness :
    (('"' : Char) ∉ (['a', 'b', 'c'] : List Char)) ∧
      scan (String.mk ('"' :: (['a', 'b', 'c'] ++ ['"']))) =
        .ok [⟨.String ['a', 'b', 'c']⟩, ⟨.EndOfFile⟩] ∧
      scan (String.mk ['"', 'a']) = .error .UnterminatedString := by
  refine ⟨by decide, claim_C4.1 ['a', 'b', 'c'] (by decide), ?_⟩
  exact claim_C4.2 ['a'] (by decide)

/-- C10: string literals may span multiple lines: for an opening quote,
contents including newline characters, and a closing quote, `scan`
succeeds and the newlines appear verbatim inside the `String` token's
text. -/
theorem claim_C10 (cs : List Char) (h : ('"' : Char) ∉ cs)
    (hnl : '\n' ∈ cs) :
    scan (String.mk ('"' :: (cs ++ ['"']))) =
      .ok [⟨.String cs⟩, ⟨.EndOfFile⟩] ∧ '\n' ∈ cs :=
  ⟨scan_loop_eq_done ('"' :: (cs ++ ['"'])) (some ⟨.String cs⟩)
    (scan_next_token_string_ok cs h), hnl⟩

theorem claim_C10_witness :
    (('"' : Char) ∉ (['a', '\n', 'b'] : List Char)) ∧
      '\n' ∈ (['a', '\n', 'b'] : List Char) ∧
      scan (String.mk ('"' :: (['a', '\n', 'b'] ++ ['"']))) =
        .ok [⟨.String ['a', '\n', 'b']⟩, ⟨.EndOfFile⟩] := by
  refine ⟨by decide, by decide, ?_⟩
  exact (claim_C10 ['a', '\n', 'b'] (by decide) (by decide)).1

/-- C5: operator disambiguation is maximal-munch with one character of
lookahead. -/
theorem claim_C5 :
    scan ("<<==") = .ok [⟨.Less⟩, ⟨.LessEqual⟩, ⟨.Equal⟩, ⟨.EndOfFile⟩] ∧
    scan ("===") = .ok [⟨.EqualEqual⟩, ⟨.Equal⟩, ⟨.EndOfFile⟩] := by
  constructor
  · have s1 : scan_next_token ("<<==").toList =
        .ok (some ⟨.Less⟩, ['<', '=', '=']) := by decide
    have s2 : scan_next_token ['<', '=', '='] =
        .ok (some ⟨.LessEqual⟩, ['=']) := by decide
    have s3 : scan_next_token ['='] = .ok (some ⟨.Equal⟩, []) := by decide
    exact scan_loop_eq_step _ _ _ _ s1 (by decide)
      (scan_loop_eq_step _ _ _ _ s2 (by decide)
        (scan_loop_eq_done ['='] (some ⟨.Equal⟩) s3))
  · have s1 : scan_next_token ("===").toList =
        .ok (some ⟨.EqualEqual⟩, ['=']) := by decide
    have s2 : scan_next_token ['='] = .ok (some ⟨.Equal⟩, []) := by decide
    exact scan_loop_eq_step _ _ _ _ s1 (by decide)
      (scan_loop_eq_done ['='] (some ⟨.Equal⟩) s2)

/-- C6 (amended): the characters skipped as whitespace are exactly Rust's
Unicode White_Space set (which properly contains space, tab, newline and
carriage return, e.g. it also contains U+000B); an input consisting only
of such characters scans to `[EndOfFile]`, and an input whose first
non-skipped character matches none of the punctuation, operator, digit,
alphabetic, or quote rules fails with an `UnrecognizedToken` error carrying
that character. -/
theorem claim_C6 :
    (∀ input : String, (∀ c ∈ input.toList, rust_is_whitespace c = true) →
      scan input = .ok [⟨.EndOfFile⟩]) ∧
    (∀ (ch : Char) (rest : List Char),
      rust_is_whitespace ch = false →
      ch ∉ ['(', ')', '{', '}', ',', '.', ';', '-', '+', '*', '/', '!',
        '=', '<', '>', '"'] →
      rust_is_numeric ch = false → rust_is_alphabetic ch = false →
      scan (String.mk (ch :: rest)) = .error (.UnrecognizedToken ch)) := by
  constructor
  · intro input hws
    have h1 : scan_next_token input.toList = .ok (none, []) := by
      unfold scan_next_token
      rw [consume_whitespace_all _ hws]
    exact scan_loop_eq_done input.toList none h1
  · intro ch rest hws hlit hn ha
    apply scan_loop_eq_error
    show scan_next_token (ch :: rest) = _
    unfold scan_next_token
    rw [consume_whitespace_cons _ _ hws]
    show scan_dispatch ch rest = _
    exact scan_dispatch_other ch rest hlit hn ha

/-- C6 counterexample: the claim says the vertical-tab character U+000B is
not whitespace and must fail with `UnrecognizedToken`; the code skips it as
whitespace and scans it to `[EndOfFile]`. -/
theorem claim_C6_counterexample :
    scan (String.mk ['\x0b']) = .ok [⟨.EndOfFile⟩] ∧
      scan (String.mk ['\x0b']) ≠
        .error (.UnrecognizedToken '\x0b') := by
  have h : scan (String.mk ['\x0b']) = .ok [⟨.EndOfFile⟩] :=
    scan_loop_eq_done ['\x0b'] none (by decide)
  exact ⟨h, fun he => by rw [h] at he; exact Except.noConfusion he⟩

theorem claim_C6_witness :
    rust_is_whitespace '?' = false ∧
      scan (String.mk ['?']) = .error (.UnrecognizedToken '?') := by
  refine ⟨by decide, ?_⟩
  exact claim_C6.2 '?' [] (by decide) (by decide) (by decide) (by decide)

theorem consume_whitespace_ws_absorb (w x : List Char)
    (hw : ∀ c ∈ w, rust_is_whitespace c = true) :
    consume_whitespace (w ++ x) = consume_whitespace x := by
  rw [consume_whitespace, consume_whitespace, consume_while_eq_dropWhile,
    consume_while_eq_dropWhile, dropWhile_append_all _ _ _ hw]

theorem scan_next_token_ws_absorb (w x : List Char)
    (hw : ∀ c ∈ w, rust_is_whitespace c = true) :
    scan_next_token (w ++ x) = scan_next_token x := by
  unfold scan_next_token
  rw [consume_whitespace_ws_absorb w x hw]

theorem scan_loop_congr (x y : List Char)
    (h : scan_next_token x = scan_next_token y) : scan_loop x = scan_loop y := by
  cases hx : scan_next_token x with
  | error e =>
    rw [scan_loop_eq_error _ _ hx, scan_loop_eq_error _ _ (h.symm.trans hx)]
  | ok pr =>
    obtain ⟨tok, rest⟩ := pr
    have hy : scan_next_token y = .ok (tok, rest) := h.symm.trans hx
    by_cases hr : rest = []
    · subst hr
      rw [scan_loop_eq_done _ _ hx, scan_loop_eq_done _ _ hy]
    · cases hrec : scan_loop rest with
      | error e =>
        rw [scan_loop_eq_step_error _ _ _ _ hx hr hrec,
          scan_loop_eq_step_error _ _ _ _ hy hr hrec]
      | ok ts =>
        rw [scan_loop_eq_step _ _ _ _ hx hr hrec,
          scan_loop_eq_step _ _ _ _ hy hr hrec]

theorem split_first_newline (sep : List Char) (h : '\n' ∈ sep) :
    ∃ s1 s2, sep = s1 ++ '\n' :: s2 ∧ ∀ c ∈ s1, is_not_newline c = true := by
  induction sep with
  | nil => exact absurd h (List.not_mem_nil _)
  | cons c t ih =>
    by_cases hc : c = '\n'
    · subst hc
      exact ⟨[], t, rfl, fun d hd => absurd hd (List.not_mem_nil d)⟩
    · have ht : '\n' ∈ t := by
        rcases List.mem_cons.mp h with h1 | h1
        · exact absurd h1.symm hc
        · exact h1
      obtain ⟨s1, s2, he, hs1⟩ := ih ht
      refine ⟨c :: s1, s2, by rw [he]; rfl, ?_⟩
      intro d hd
      rcases List.mem_cons.mp hd with h1 | h1
      · subst h1
        simp [is_not_newline, hc]
      · exact hs1 d h1

theorem try_eat_next_cons_pos (p : Char → Bool) (c : Char) (t : List Char)
    (h : p c = true) : try_eat_next p (c :: t) = (some c, t) := by
  simp [try_eat_next, h]

theorem try_eat_next_cons_neg (p : Char → Bool) (c : Char) (t : List Char)
    (h : p c = false) : try_eat_next p (c :: t) = (none, c :: t) := by
  simp [try_eat_next, h]

theorem cslc_extend (t ext : List Char)
    (h : consume_single_line_comment t ≠ []) :
    consume_single_line_comment (t ++ ext) =
      consume_single_line_comment t ++ ext := by
  rw [consume_single_line_comment, consume_single_line_comment,
    consume_while_eq_dropWhile, consume_while_eq_dropWhile] at *
  rw [dropWhile_append_of_stop _ _ _ h]

theorem op_match_extend (two one : TokenKind) (r0 : List Char)
    (ra ext : List Char) (tok : Option Token) (hne : ra ≠ [])
    (h : (match try_eat_next (equals '=') r0 with
          | (some _, rest2) =>
            (Except.ok (some (⟨two⟩ : Token), rest2) :
              Except ScanError (Option Token × List Char))
          | (none, rest2) => Except.ok (some ⟨one⟩, rest2)) = .ok (tok, ra)) :
    (match try_eat_next (equals '=') (r0 ++ ext) with
     | (some _, rest2) =>
       (Except.ok (some (⟨two⟩ : Token), rest2) :
         Except ScanError (Option Token × List Char))
     | (none, rest2) => Except.ok (some ⟨one⟩, rest2)) = .ok (tok, ra ++ ext) := by
  cases r0 with
  | nil =>
    injection h with h2
    injection h2 with h3 h4
    exact absurd h4.symm hne
  | cons d t =>
    cases hd : equals '=' d with
    | true =>
      rw [try_eat_next_cons_pos _ _ _ hd] at h
      injection h with h2
      injection h2 with h3 h4
      show (match try_eat_next (equals '=') (d :: (t ++ ext)) with
        | (some _, rest2) =>
          (Except.ok (some (⟨two⟩ : Token), rest2) :
            Except ScanError (Option Token × List Char))
        | (none, rest2) => Except.ok (some ⟨one⟩, rest2)) = .ok (tok, ra ++ ext)
      rw [try_eat_next_cons_pos _ _ _ hd]
      rw [← h3, ← h4]
    | false =>
      rw [try_eat_next_cons_neg _ _ _ hd] at h
      injection h with h2
      injection h2 with h3 h4
      show (match try_eat_next (equals '=') (d :: (t ++ ext)) with
        | (some _, rest2) =>
          (Except.ok (some (⟨two⟩ : Token), rest2) :
            Except ScanError (Option Token × List Char))
        | (none, rest2) => Except.ok (some ⟨one⟩, rest2)) = .ok (tok, ra ++ ext)
      rw [try_eat_next_cons_neg _ _ _ hd]
      rw [← h3, ← h4]
      rfl

theorem slash_match_extend (r0 : List Char) (ra ext : List Char)
    (tok : Option Token) (hne : ra ≠ [])
    (h : (match try_eat_next (equals '/') r0 with
          | (some _, rest2) =>
            (Except.ok (none, consume_single_line_comment rest2) :
              Except ScanError (Option Token × List Char))
          | (none, rest2) =>
            Except.ok (some ⟨.Slash⟩, rest2)) = .ok (tok, ra)) :
    (match try_eat_next (equals '/') (r0 ++ ext) with
     | (some _, rest2) =>
       (Except.ok (none, consume_single_line_comment rest2) :
         Except ScanError (Option Token × List Char))
     | (none, rest2) =>
       Except.ok (some ⟨.Slash⟩, rest2)) = .ok (tok, ra ++ ext) := by
  cases r0 with
  | nil =>
    injection h with h2
    injection h2 with h3 h4
    exact absurd h4.symm hne
  | cons d t =>
    cases hd : equals '/' d with
    | true =>
      rw [try_eat_next_cons_pos _ _ _ hd] at h
      injection h with h2
      injection h2 with h3 h4
      show (match try_eat_next (equals '/') (d :: (t ++ ext)) with
        | (some _, rest2) =>
          (Except.ok (none, consume_single_line_comment rest2) :
            Except ScanError (Option Token × List Char))
        | (none, rest2) =>
          Except.ok (some ⟨.Slash⟩, rest2)) = .ok (tok, ra ++ ext)
      rw [try_eat_next_cons_pos _ _ _ hd]
      rw [← h3, ← h4, ← cslc_extend t ext (by rw [h4]; exact hne)]
    | false =>
      rw [try_eat_next_cons_neg _ _ _ hd] at h
      injection h with h2
      injection h2 with h3 h4
      show (match try_eat_next (equals '/') (d :: (t ++ ext)) with
        | (some _, rest2) =>
          (Except.ok (none, consume_single_line_comment rest2) :
            Except ScanError (Option Token × List Char))
        | (none, rest2) =>
          Except.ok (some ⟨.Slash⟩, rest2)) = .ok (tok, ra ++ ext)
      rw [try_eat_next_cons_neg _ _ _ hd]
      rw [← h3, ← h4]
      rfl

theorem quote_match_extend (r0 : List Char) (ra ext : List Char)
    (tok : Option Token) (hne : ra ≠ [])
    (h : (match scan_while is_not_double_quote r0 with
          | (_, []) =>
            (Except.error ScanError.UnterminatedString :
              Except ScanError (Option Token × List Char))
          | (contents, _ :: rest3) =>
            Except.ok (some ⟨.String contents⟩, rest3)) = .ok (tok, ra)) :
    (match scan_while is_not_double_quote (r0 ++ ext) with
     | (_, []) =>
       (Except.error ScanError.UnterminatedString :
         Except ScanError (Option Token × List Char))
     | (contents, _ :: rest3) =>
       Except.ok (some ⟨.String contents⟩, rest3)) = .ok (tok, ra ++ ext) := by
  cases hsw : scan_while is_not_double_quote r0 with
  | mk contents r2 =>
  rw [hsw] at h
  cases r2 with
  | nil => exact Except.noConfusion h
  | cons q r3 =>
    injection h with h2
    injection h2 with h3 h4
    have h5 : scan_while is_not_double_quote (r0 ++ ext) =
        (contents, q :: (r3 ++ ext)) := by
      rw [scan_while_eq] at hsw ⊢
      injection hsw with e1 e2
      rw [takeWhile_append_of_stop _ _ _ (by rw [e2]; simp),
        dropWhile_append_of_stop _ _ _ (by rw [e2]; simp), e1, e2]
      rfl
    rw [h5]
    rw [← h3, ← h4]

theorem numeric_match_extend (ch : Char) (r0 : List Char) (ra ext : List Char)
    (tok : Option Token) (hne : ra ≠ [])
    (h : (match scan_while rust_is_numeric r0 with
          | (run, rest2) =>
            match parse_i32 (ch :: run) with
            | some n =>
              (Except.ok (some (⟨.Number n⟩ : Token), rest2) :
                Except ScanError (Option Token × List Char))
            | none => Except.error (.NumberParse (ch :: run))) = .ok (tok, ra)) :
    (match scan_while rust_is_numeric (r0 ++ ext) with
     | (run, rest2) =>
       match parse_i32 (ch :: run) with
       | some n =>
         (Except.ok (some (⟨.Number n⟩ : Token), rest2) :
           Except ScanError (Option Token × List Char))
       | none => Except.error (.NumberParse (ch :: run))) = .ok (tok, ra ++ ext) := by
  cases hsw : scan_while rust_is_numeric r0 with
  | mk run r2 =>
  rw [hsw] at h
  have h6 : (match parse_i32 (ch :: run) with
      | some n =>
        (Except.ok (some (⟨.Number n⟩ : Token), r2) :
          Except ScanError (Option Token × List Char))
      | none => Except.error (.NumberParse (ch :: run))) = .ok (tok, ra) := h
  cases hp : parse_i32 (ch :: run) with
  | none => rw [hp] at h6; exact Except.noConfusion h6
  | some n =>
    rw [hp] at h6
    injection h6 with h2
    injection h2 with h3 h4
    have hr2 : r2 ≠ [] := by rw [h4]; exact hne
    have h5 : scan_while rust_is_numeric (r0 ++ ext) = (run, r2 ++ ext) := by
      rw [scan_while_eq] at hsw ⊢
      injection hsw with e1 e2
      rw [takeWhile_append_of_stop _ _ _ (by rw [e2]; exact hr2),
        dropWhile_append_of_stop _ _ _ (by rw [e2]; exact hr2), e1, e2]
    rw [h5]
    show (match parse_i32 (ch :: run) with
      | some m =>
        (Except.ok (some (⟨.Number m⟩ : Token), r2 ++ ext) :
          Except ScanError (Option Token × List Char))
      | none => Except.error (.NumberParse (ch :: run))) = .ok (tok, ra ++ ext)
    rw [hp, ← h3, ← h4]

theorem alpha_match_extend (ch : Char) (r0 : List Char) (ra ext : List Char)
    (tok : Option Token) (hne : ra ≠ [])
    (h : (match scan_while rust_is_alphabetic r0 with
          | (run, rest2) =>
            match keyword_token (ch :: run) with
            | some k =>
              (Except.ok (some (⟨k⟩ : Token), rest2) :
                Except ScanError (Option Token × List Char))
            | none =>
              Except.error (.UnrecognizedKeyword (ch :: run))) = .ok (tok, ra)) :
    (match scan_while rust_is_alphabetic (r0 ++ ext) with
     | (run, rest2) =>
       match keyword_token (ch :: run) with
       | some k =>
         (Except.ok (some (⟨k⟩ : Token), rest2) :
           Except ScanError (Option Token × List Char))
       | none =>
         Except.error (.UnrecognizedKeyword (ch :: run))) = .ok (tok, ra ++ ext) := by
  cases hsw : scan_while rust_is_alphabetic r0 with
  | mk run r2 =>
  rw [hsw] at h
  have h6 : (match keyword_token (ch :: run) with
      | some k =>
        (Except.ok (some (⟨k⟩ : Token), r2) :
          Except ScanError (Option Token × List Char))
      | none =>
        Except.error (.UnrecognizedKeyword (ch :: run))) = .ok (tok, ra) := h
  cases hk : keyword_token (ch :: run) with
  | none => rw [hk] at h6; exact Except.noConfusion h6
  | some k =>
    rw [hk] at h6
    injection h6 with h2
    injection h2 with h3 h4
    have hr2 : r2 ≠ [] := by rw [h4]; exact hne
    have h5 : scan_while rust_is_alphabetic (r0 ++ ext) = (run, r2 ++ ext) := by
      rw [scan_while_eq] at hsw ⊢
      injection hsw with e1 e2
      rw [takeWhile_append_of_stop _ _ _ (by rw [e2]; exact hr2),
        dropWhile_append_of_stop _ _ _ (by rw [e2]; exact hr2), e1, e2]
    rw [h5]
    show (match keyword_token (ch :: run) with
      | some k2 =>
        (Except.ok (some (⟨k2⟩ : Token), r2 ++ ext) :
          Except ScanError (Option Token × List Char))
      | none =>
        Except.error (.UnrecognizedKeyword (ch :: run))) = .ok (tok, ra ++ ext)
    rw [hk, ← h3, ← h4]

/-- Locality of the dispatch: a dispatch that stops strictly before the end
of its input behaves identically when more input is appended. -/
theorem scan_dispatch_extend (ch : Char) (r0 : List Char) (tok : Option Token)
    (ra ext : List Char) (h : scan_dispatch ch r0 = .ok (tok, ra))
    (hne : ra ≠ []) :
    scan_dispatch ch (r0 ++ ext) = .ok (tok, ra ++ ext) := by
  unfold scan_dispatch
  split
  all_goals try (injection h with h2; injection h2 with h3 h4; rw [← h3, ← h4])
  · exact slash_match_extend r0 ra ext tok hne h
  · exact op_match_extend TokenKind.BangEqual TokenKind.Bang r0 ra ext tok hne h
  · exact op_match_extend TokenKind.EqualEqual TokenKind.Equal r0 ra ext tok hne h
  · exact op_match_extend TokenKind.LessEqual TokenKind.Less r0 ra ext tok hne h
  · exact op_match_extend TokenKind.GreaterEqual TokenKind.Greater r0 ra ext tok
      hne h
  · exact quote_match_extend r0 ra ext tok hne h
  · rename_i hl1 hl2 hl3 hl4 hl5 hl6 hl7 hl8 hl9 hl10 hl11 hl12 hl13 hl14
      hl15 hl16
    cases hnum : rust_is_numeric ch with
    | true =>
      rw [if_pos rfl]
      have h2 : (match scan_while rust_is_numeric r0 with
          | (run, rest2) =>
            match parse_i32 (ch :: run) with
            | some n =>
              (Except.ok (some (⟨.Number n⟩ : Token), rest2) :
                Except ScanError (Option Token × List Char))
            | none =>
              Except.error (.NumberParse (ch :: run))) = .ok (tok, ra) := by
        rw [← scan_dispatch_numeric ch r0 hnum]
        exact h
      exact numeric_match_extend ch r0 ra ext tok hne h2
    | false =>
      rw [if_neg (by simp)]
      cases halpha : rust_is_alphabetic ch with
      | true =>
        rw [if_pos rfl]
        have h2 : (match scan_while rust_is_alphabetic r0 with
            | (run, rest2) =>
              match keyword_token (ch :: run) with
              | some k =>
                (Except.ok (some (⟨k⟩ : Token), rest2) :
                  Except ScanError (Option Token × List Char))
              | none =>
                Except.error (.UnrecognizedKeyword (ch :: run))) =
            .ok (tok, ra) := by
          rw [← scan_dispatch_alpha ch r0 halpha hnum]
          exact h
        exact alpha_match_extend ch r0 ra ext tok hne h2
      | false =>
        have hlit : ch ∉ ['(', ')', '{', '}', ',', '.', ';', '-', '+', '*',
            '/', '!', '=', '<', '>', '"'] := by
          intro hmem
          simp only [List.mem_cons, List.not_mem_nil, or_false] at hmem
          rcases hmem with e | e | e | e | e | e | e | e | e | e | e | e | e
            | e | e | e
          exacts [hl1 e, hl2 e, hl3 e, hl4 e, hl5 e, hl6 e, hl7 e, hl8 e,
            hl9 e, hl10 e, hl11 e, hl12 e, hl13 e, hl14 e, hl15 e, hl16 e]
        rw [scan_dispatch_other ch r0 hlit hnum halpha] at h
        exact Except.noConfusion h

/-- Locality of one scanning step: a step that stops strictly before the
end of the input behaves identically when more input is appended. -/
theorem scan_next_token_extend (a : List Char) (tok : Option Token)
    (ra ext : List Char) (h : scan_next_token a = .ok (tok, ra))
    (hne : ra ≠ []) :
    scan_next_token (a ++ ext) = .ok (tok, ra ++ ext) := by
  unfold scan_next_token at h ⊢
  cases hc : consume_whitespace a with
  | nil =>
    rw [hc] at h
    injection h with h2
    injection h2 with h3 h4
    exact absurd h4.symm hne
  | cons ch r0 =>
    rw [hc] at h
    have hc2 : consume_whitespace (a ++ ext) = ch :: (r0 ++ ext) := by
      rw [consume_whitespace, consume_while_eq_dropWhile] at hc ⊢
      rw [dropWhile_append_of_stop _ _ _ (by rw [hc]; simp), hc]
      rfl
    rw [hc2]
    show scan_dispatch ch (r0 ++ ext) = _
    exact scan_dispatch_extend ch r0 tok ra ext h hne

theorem op_match_boundary (two one : TokenKind) (r0 sep b : List Char)
    (tok : Option Token)
    (hsep : ∀ c ∈ sep, rust_is_whitespace c = true) (hsepne : sep ≠ [])
    (h : (match try_eat_next (equals '=') r0 with
          | (some _, rest2) =>
            (Except.ok (some (⟨two⟩ : Token), rest2) :
              Except ScanError (Option Token × List Char))
          | (none, rest2) => Except.ok (some ⟨one⟩, rest2)) = .ok (tok, [])) :
    (match try_eat_next (equals '=') (r0 ++ (sep ++ b)) with
     | (some _, rest2) =>
       (Except.ok (some (⟨two⟩ : Token), rest2) :
         Except ScanError (Option Token × List Char))
     | (none, rest2) => Except.ok (some ⟨one⟩, rest2)) = .ok (tok, sep ++ b) := by
  obtain ⟨s0, s', hseps⟩ := List.exists_cons_of_ne_nil hsepne
  have hs0 : rust_is_whitespace s0 = true :=
    hsep s0 (by rw [hseps]; exact List.mem_cons_self _ _)
  have hs0e : equals '=' s0 = false := by
    have hne2 : s0 ≠ '=' := ws_char_ne s0 '=' hs0 (by decide)
    simp [equals, hne2]
  cases r0 with
  | nil =>
    injection h with h2
    injection h2 with h3 h4
    rw [hseps]
    simp only [List.nil_append, List.cons_append]
    rw [try_eat_next_cons_neg _ _ _ hs0e, ← h3]
  | cons d t =>
    cases hd : equals '=' d with
    | true =>
      rw [try_eat_next_cons_pos _ _ _ hd] at h
      injection h with h2
      injection h2 with h3 h4
      simp only [List.cons_append]
      rw [try_eat_next_cons_pos _ _ _ hd, h4, ← h3]
      rfl
    | false =>
      rw [try_eat_next_cons_neg _ _ _ hd] at h
      injection h with h2
      injection h2 with h3 h4
      exact absurd h4 (by simp)

theorem quote_match_boundary (r0 sep b : List Char) (tok : Option Token)
    (h : (match scan_while is_not_double_quote r0 with
          | (_, []) =>
            (Except.error ScanError.UnterminatedString :
              Except ScanError (Option Token × List Char))
          | (contents, _ :: rest3) =>
            Except.ok (some ⟨.String contents⟩, rest3)) = .ok (tok, [])) :
    (match scan_while is_not_double_quote (r0 ++ (sep ++ b)) with
     | (_, []) =>
       (Except.error ScanError.UnterminatedString :
         Except ScanError (Option Token × List Char))
     | (contents, _ :: rest3) =>
       Except.ok (some ⟨.String contents⟩, rest3)) = .ok (tok, sep ++ b) := by
  cases hsw : scan_while is_not_double_quote r0 with
  | mk contents r2 =>
  rw [hsw] at h
  cases r2 with
  | nil => exact Except.noConfusion h
  | cons q r3 =>
    injection h with h2
    injection h2 with h3 h4
    have h5 : scan_while is_not_double_quote (r0 ++ (sep ++ b)) =
        (contents, q :: (r3 ++ (sep ++ b))) := by
      rw [scan_while_eq] at hsw ⊢
      injection hsw with e1 e2
      rw [takeWhile_append_of_stop _ _ _ (by rw [e2]; simp),
        dropWhile_append_of_stop _ _ _ (by rw [e2]; simp), e1, e2]
      rfl
    rw [h5, ← h3, h4]
    rfl

theorem slash_match_boundary (r0 sep b : List Char) (tok : Option Token)
    (hsep : ∀ c ∈ sep, rust_is_whitespace c = true) (hnl : '\n' ∈ sep)
    (h : (match try_eat_next (equals '/') r0 with
          | (some _, rest2) =>
            (Except.ok (none, consume_single_line_comment rest2) :
              Except ScanError (Option Token × List Char))
          | (none, rest2) =>
            Except.ok (some ⟨.Slash⟩, rest2)) = .ok (tok, [])) :
    ∃ st, (match try_eat_next (equals '/') (r0 ++ (sep ++ b)) with
      | (some _, rest2) =>
        (Except.ok (none, consume_single_line_comment rest2) :
          Except ScanError (Option Token × List Char))
      | (none, rest2) =>
        Except.ok (some ⟨.Slash⟩, rest2)) = .ok (tok, st ++ b) ∧
      ∀ c ∈ st, rust_is_whitespace c = true := by
  have hsepne : sep ≠ [] := fun e => by
    rw [e] at hnl
    exact List.not_mem_nil _ hnl
  cases r0 with
  | nil =>
    obtain ⟨s0, s', hseps⟩ := List.exists_cons_of_ne_nil hsepne
    have hs0 : rust_is_whitespace s0 = true :=
      hsep s0 (by rw [hseps]; exact List.mem_cons_self _ _)
    have hs0e : equals '/' s0 = false := by
      have hne2 : s0 ≠ '/' := ws_char_ne s0 '/' hs0 (by decide)
      simp [equals, hne2]
    injection h with h2
    injection h2 with h3 h4
    refine ⟨sep, ?_, hsep⟩
    rw [hseps]
    simp only [List.nil_append, List.cons_append]
    rw [try_eat_next_cons_neg _ _ _ hs0e, ← h3]
  | cons d t =>
    cases hd : equals '/' d with
    | true =>
      rw [try_eat_next_cons_pos _ _ _ hd] at h
      injection h with h2
      injection h2 with h3 h4
      have hallt : ∀ c ∈ t, is_not_newline c = true := by
        rw [consume_single_line_comment, consume_while_eq_dropWhile] at h4
        exact List.dropWhile_eq_nil_iff.mp h4
      obtain ⟨s1, s2, hseps, hs1⟩ := split_first_newline sep hnl
      refine ⟨'\n' :: s2, ?_, ?_⟩
      · simp only [List.cons_append]
        rw [try_eat_next_cons_pos _ _ _ hd, ← h3]
        have hcsl : consume_single_line_comment (t ++ (sep ++ b)) =
            '\n' :: (s2 ++ b) := by
          rw [consume_single_line_comment, consume_while_eq_dropWhile, hseps]
          have hre : t ++ ((s1 ++ '\n' :: s2) ++ b) =
              (t ++ s1) ++ ('\n' :: (s2 ++ b)) := by simp
          rw [hre, dropWhile_append_all _ _ _ (fun c hc => ?_),
            List.dropWhile_cons]
          · rw [show is_not_newline '\n' = false from by decide]
            simp
          · rcases List.mem_append.mp hc with hm | hm
            · exact hallt c hm
            · exact hs1 c hm
        show (Except.ok (none, consume_single_line_comment (t ++ (sep ++ b))) :
            Except ScanError (Option Token × List Char)) =
          Except.ok (none, ('\n' :: s2) ++ b)
        rw [hcsl]
        rfl
      · intro c hc
        rcases List.mem_cons.mp hc with e | e
        · subst e
          decide
        · exact hsep c (by
            rw [hseps]
            exact List.mem_append.mpr (Or.inr (List.mem_cons_of_mem _ e)))
    | false =>
      rw [try_eat_next_cons_neg _ _ _ hd] at h
      injection h with h2
      injection h2 with h3 h4
      exact absurd h4 (by simp)

theorem numeric_match_boundary (ch : Char) (r0 sep b : List Char)
    (tok : Option Token)
    (hsep : ∀ c ∈ sep, rust_is_whitespace c = true) (hsepne : sep ≠ [])
    (h : (match scan_while rust_is_numeric r0 with
          | (run, rest2) =>
            match parse_i32 (ch :: run) with
            | some n =>
              (Except.ok (some (⟨.Number n⟩ : Token), rest2) :
                Except ScanError (Option Token × List Char))
            | none => Except.error (.NumberParse (ch :: run))) = .ok (tok, [])) :
    (match scan_while rust_is_numeric (r0 ++ (sep ++ b)) with
     | (run, rest2) =>
       match parse_i32 (ch :: run) with
       | some n =>
         (Except.ok (some (⟨.Number n⟩ : Token), rest2) :
           Except ScanError (Option Token × List Char))
       | none => Except.error (.NumberParse (ch :: run))) =
      .ok (tok, sep ++ b) := by
  obtain ⟨s0, s', hseps⟩ := List.exists_cons_of_ne_nil hsepne
  have hs0 : rust_is_whitespace s0 = true :=
    hsep s0 (by rw [hseps]; exact List.mem_cons_self _ _)
  have hs0d : rust_is_numeric s0 = false := ws_not_numeric s0 hs0
  cases hsw : scan_while rust_is_numeric r0 with
  | mk run r2 =>
  rw [hsw] at h
  have h6 : (match parse_i32 (ch :: run) with
      | some n =>
        (Except.ok (some (⟨.Number n⟩ : Token), r2) :
          Except ScanError (Option Token × List Char))
      | none => Except.error (.NumberParse (ch :: run))) = .ok (tok, []) := h
  cases hp : parse_i32 (ch :: run) with
  | none => rw [hp] at h6; exact Except.noConfusion h6
  | some n =>
    rw [hp] at h6
    injection h6 with h2
    injection h2 with h3 h4
    rw [scan_while_eq] at hsw
    injection hsw with e1 e2
    rw [h4] at e2
    have hall : ∀ c ∈ r0, rust_is_numeric c = true :=
      List.dropWhile_eq_nil_iff.mp e2
    have e1' : r0 = run := by
      rw [← e1, List.takeWhile_eq_self_iff.mpr hall]
    have h5 : scan_while rust_is_numeric (r0 ++ (sep ++ b)) =
        (run, sep ++ b) := by
      rw [scan_while_eq, takeWhile_append_all _ _ _ hall,
        dropWhile_append_all _ _ _ hall, hseps]
      simp only [List.cons_append, List.takeWhile_cons, List.dropWhile_cons,
        hs0d]
      simp [e1']
    rw [h5]
    show (match parse_i32 (ch :: run) with
      | some m =>
        (Except.ok (some (⟨.Number m⟩ : Token), sep ++ b) :
          Except ScanError (Option Token × List Char))
      | none => Except.error (.NumberParse (ch :: run))) = .ok (tok, sep ++ b)
    rw [hp, ← h3]

theorem alpha_match_boundary (ch : Char) (r0 sep b : List Char)
    (tok : Option Token)
    (hsep : ∀ c ∈ sep, rust_is_whitespace c = true) (hsepne : sep ≠ [])
    (h : (match scan_while rust_is_alphabetic r0 with
          | (run, rest2) =>
            match keyword_token (ch :: run) with
            | some k =>
              (Except.ok (some (⟨k⟩ : Token), rest2) :
                Except ScanError (Option Token × List Char))
            | none =>
              Except.error (.UnrecognizedKeyword (ch :: run))) = .ok (tok, [])) :
    (match scan_while rust_is_alphabetic (r0 ++ (sep ++ b)) with
     | (run, rest2) =>
       match keyword_token (ch :: run) with
       | some k =>
         (Except.ok (some (⟨k⟩ : Token), rest2) :
           Except ScanError (Option Token × List Char))
       | none =>
         Except.error (.UnrecognizedKeyword (ch :: run))) =
      .ok (tok, sep ++ b) := by
  obtain ⟨s0, s', hseps⟩ := List.exists_cons_of_ne_nil hsepne
  have hs0 : rust_is_whitespace s0 = true :=
    hsep s0 (by rw [hseps]; exact List.mem_cons_self _ _)
  have hs0d : rust_is_alphabetic s0 = false := ws_not_alpha s0 hs0
  cases hsw : scan_while rust_is_alphabetic r0 with
  | mk run r2 =>
  rw [hsw] at h
  have h6 : (match keyword_token (ch :: run) with
      | some k =>
        (Except.ok (some (⟨k⟩ : Token), r2) :
          Except ScanError (Option Token × List Char))
      | none =>
        Except.error (.UnrecognizedKeyword (ch :: run))) = .ok (tok, []) := h
  cases hk : keyword_token (ch :: run) with
  | none => rw [hk] at h6; exact Except.noConfusion h6
  | some k =>
    rw [hk] at h6
    injection h6 with h2
    injection h2 with h3 h4
    rw [scan_while_eq] at hsw
    injection hsw with e1 e2
    rw [h4] at e2
    have hall : ∀ c ∈ r0, rust_is_alphabetic c = true :=
      List.dropWhile_eq_nil_iff.mp e2
    have e1' : r0 = run := by
      rw [← e1, List.takeWhile_eq_self_iff.mpr hall]
    have h5 : scan_while rust_is_alphabetic (r0 ++ (sep ++ b)) =
        (run, sep ++ b) := by
      rw [scan_while_eq, takeWhile_append_all _ _ _ hall,
        dropWhile_append_all _ _ _ hall, hseps]
      simp only [List.cons_append, List.takeWhile_cons, List.dropWhile_cons,
        hs0d]
      simp [e1']
    rw [h5]
    show (match keyword_token (ch :: run) with
      | some k2 =>
        (Except.ok (some (⟨k2⟩ : Token), sep ++ b) :
          Except ScanError (Option Token × List Char))
      | none =>
        Except.error (.UnrecognizedKeyword (ch :: run))) = .ok (tok, sep ++ b)
    rw [hk, ← h3]

/-- A scanning step that consumes exactly to the end of its input, run on
that input extended by an all-whitespace separator containing a newline and
then more text, produces the same token and stops inside the separator. -/
theorem scan_dispatch_boundary (ch : Char) (r0 sep b : List Char)
    (tok : Option Token)
    (hsep : ∀ c ∈ sep, rust_is_whitespace c = true) (hnl : '\n' ∈ sep)
    (h : scan_dispatch ch r0 = .ok (tok, [])) :
    ∃ st, scan_dispatch ch (r0 ++ (sep ++ b)) = .ok (tok, st ++ b) ∧
      ∀ c ∈ st, rust_is_whitespace c = true := by
  have hsepne : sep ≠ [] := fun e => by
    rw [e] at hnl
    exact List.not_mem_nil _ hnl
  unfold scan_dispatch
  split
  all_goals try (refine ⟨sep, ?_, hsep⟩
                 injection h with h2
                 injection h2 with h3 h4
                 rw [← h3, h4]
                 rfl)
  · exact slash_match_boundary r0 sep b tok hsep hnl h
  · exact ⟨sep, op_match_boundary TokenKind.BangEqual TokenKind.Bang r0 sep b
      tok hsep hsepne h, hsep⟩
  · exact ⟨sep, op_match_boundary TokenKind.EqualEqual TokenKind.Equal r0 sep
      b tok hsep hsepne h, hsep⟩
  · exact ⟨sep, op_match_boundary TokenKind.LessEqual TokenKind.Less r0 sep b
      tok hsep hsepne h, hsep⟩
  · exact ⟨sep, op_match_boundary TokenKind.GreaterEqual TokenKind.Greater r0
      sep b tok hsep hsepne h, hsep⟩
  · exact ⟨sep, quote_match_boundary r0 sep b tok h, hsep⟩
  · rename_i hl1 hl2 hl3 hl4 hl5 hl6 hl7 hl8 hl9 hl10 hl11 hl12 hl13 hl14
      hl15 hl16
    cases hnum : rust_is_numeric ch with
    | true =>
      rw [if_pos rfl]
      refine ⟨sep, ?_, hsep⟩
      have h2 : (match scan_while rust_is_numeric r0 with
          | (run, rest2) =>
            match parse_i32 (ch :: run) with
            | some n =>
              (Except.ok (some (⟨.Number n⟩ : Token), rest2) :
                Except ScanError (Option Token × List Char))
            | none =>
              Except.error (.NumberParse (ch :: run))) = .ok (tok, []) := by
        rw [← scan_dispatch_numeric ch r0 hnum]
        exact h
      exact numeric_match_boundary ch r0 sep b tok hsep hsepne h2
    | false =>
      rw [if_neg (by simp)]
      cases halpha : rust_is_alphabetic ch with
      | true =>
        rw [if_pos rfl]
        refine ⟨sep, ?_, hsep⟩
        have h2 : (match scan_while rust_is_alphabetic r0 with
            | (run, rest2) =>
              match keyword_token (ch :: run) with
              | some k =>
                (Except.ok (some (⟨k⟩ : Token), rest2) :
                  Except ScanError (Option Token × List Char))
              | none =>
                Except.error (.UnrecognizedKeyword (ch :: run))) =
            .ok (tok, []) := by
          rw [← scan_dispatch_alpha ch r0 halpha hnum]
          exact h
        exact alpha_match_boundary ch r0 sep b tok hsep hsepne h2
      | false =>
        have hlit : ch ∉ ['(', ')', '{', '}', ',', '.', ';', '-', '+', '*',
            '/', '!', '=', '<', '>', '"'] := by
          intro hmem
          simp only [List.mem_cons, List.not_mem_nil, or_false] at hmem
          rcases hmem with e | e | e | e | e | e | e | e | e | e | e | e | e
            | e | e | e
          exacts [hl1 e, hl2 e, hl3 e, hl4 e, hl5 e, hl6 e, hl7 e, hl8 e,
            hl9 e, hl10 e, hl11 e, hl12 e, hl13 e, hl14 e, hl15 e, hl16 e]
        rw [scan_dispatch_other ch r0 hlit hnum halpha] at h
        exact Except.noConfusion h

/-- One scanning step at a token that ends exactly at the end of `a`:
on `a ++ sep ++ b` the same token is produced and the cursor stops inside
the whitespace separator. -/
theorem scan_next_token_boundary (a : List Char) (tok : Option Token)
    (sep b : List Char)
    (hsep : ∀ c ∈ sep, rust_is_whitespace c = true) (hnl : '\n' ∈ sep)
    (h : scan_next_token a = .ok (tok, []))
    (hcw : consume_whitespace a ≠ []) :
    ∃ st, scan_next_token (a ++ (sep ++ b)) = .ok (tok, st ++ b) ∧
      ∀ c ∈ st, rust_is_whitespace c = true := by
  unfold scan_next_token at h ⊢
  cases hc : consume_whitespace a with
  | nil => exact absurd hc hcw
  | cons ch r0 =>
    rw [hc] at h
    have hc2 : consume_whitespace (a ++ (sep ++ b)) =
        ch :: (r0 ++ (sep ++ b)) := by
      rw [consume_whitespace, consume_while_eq_dropWhile] at hc ⊢
      rw [dropWhile_append_of_stop _ _ _ (by rw [hc]; simp), hc]
      rfl
    rw [hc2]
    exact scan_dispatch_boundary ch r0 sep b tok hsep hnl h

theorem scan_loop_append_aux (n : Nat) : ∀ (a : List Char), a.length ≤ n →
    ∀ (sep b : List Char) (ta tb : List Token),
    (∀ c ∈ sep, rust_is_whitespace c = true) → '\n' ∈ sep →
    scan_loop a = .ok ta → scan_loop b = .ok tb →
    scan_loop (a ++ (sep ++ b)) = .ok (ta.dropLast ++ tb) := by
  induction n with
  | zero =>
    intro a hle sep b ta tb hsep hnl ha hb
    have ha0 : a = [] := List.length_eq_zero.mp (Nat.le_zero.mp hle)
    subst ha0
    have h1 : scan_loop ([] : List Char) = .ok [⟨.EndOfFile⟩] :=
      scan_loop_eq_done [] none (by decide)
    rw [h1] at ha
    injection ha with ha
    subst ha
    show scan_loop (sep ++ b) = _
    rw [scan_loop_congr _ _ (scan_next_token_ws_absorb sep b hsep), hb]
    rfl
  | succ n ih =>
    intro a hle sep b ta tb hsep hnl ha hb
    cases hsnt : scan_next_token a with
    | error e =>
      rw [scan_loop_eq_error _ _ hsnt] at ha
      exact Except.noConfusion ha
    | ok pr =>
      obtain ⟨tok, ra⟩ := pr
      by_cases hra : ra = []
      · subst hra
        rw [scan_loop_eq_done _ _ hsnt] at ha
        injection ha with ha
        subst ha
        by_cases hcw : consume_whitespace a = []
        · have htok : tok = none := by
            unfold scan_next_token at hsnt
            rw [hcw] at hsnt
            injection hsnt with h2
            injection h2 with h3 h4
            exact h3.symm
          have haws : ∀ c ∈ a, rust_is_whitespace c = true := by
            rw [consume_whitespace, consume_while_eq_dropWhile] at hcw
            exact List.dropWhile_eq_nil_iff.mp hcw
          have h2 : scan_next_token (a ++ (sep ++ b)) = scan_next_token b := by
            rw [← List.append_assoc]
            exact scan_next_token_ws_absorb (a ++ sep) b (fun c hc => by
              rcases List.mem_append.mp hc with hm | hm
              · exact haws c hm
              · exact hsep c hm)
          rw [scan_loop_congr _ _ h2, hb, htok]
          rfl
        · obtain ⟨st, hst, hstws⟩ :=
            scan_next_token_boundary a tok sep b hsep hnl hsnt hcw
          by_cases hstb : st ++ b = []
          · have hb0 : b = [] := (List.append_eq_nil.mp hstb).2
            rw [hstb] at hst
            rw [scan_loop_eq_done _ _ hst]
            rw [hb0] at hb
            have h3 : scan_loop ([] : List Char) = .ok [⟨.EndOfFile⟩] :=
              scan_loop_eq_done [] none (by decide)
            rw [h3] at hb
            injection hb with hb
            subst hb
            rw [List.dropLast_append_of_ne_nil _ (by simp)]
            simp
          · have hrec : scan_loop (st ++ b) = .ok tb := by
              rw [scan_loop_congr (st ++ b) b
                (scan_next_token_ws_absorb st b hstws), hb]
            rw [scan_loop_eq_step _ _ _ _ hst hstb hrec]
            rw [List.dropLast_append_of_ne_nil _ (by simp)]
            simp
      · have hral : ra.length < a.length := by
          rcases scan_next_token_progress a tok ra hsnt with h3 | h3
          · exact absurd h3 hra
          · exact h3
        cases hrec : scan_loop ra with
        | error e =>
          rw [scan_loop_eq_step_error _ _ _ _ hsnt hra hrec] at ha
          exact Except.noConfusion ha
        | ok ta2 =>
          rw [scan_loop_eq_step _ _ _ _ hsnt hra hrec] at ha
          injection ha with ha
          subst ha
          have hext := scan_next_token_extend a tok ra (sep ++ b) hsnt hra
          have hih := ih ra (by omega) sep b ta2 tb hsep hnl hrec hb
          have hne2 : ra ++ (sep ++ b) ≠ [] := by simp [hra]
          rw [scan_loop_eq_step _ _ _ _ hext hne2 hih]
          have hta2 : ta2 ≠ [] := by
            obtain ⟨ts0, hts0, _⟩ := scan_loop_shape ra ta2 hrec
            rw [hts0]
            simp
          rw [List.dropLast_append_of_ne_nil _ hta2, List.append_assoc]

/-- C7 (amended): for all inputs on which scan succeeds, joined by a
whitespace separator that contains at least one newline, the scan of the
concatenation is the concatenation of the first scan's tokens minus its
EndOfFile with the second scan's tokens. -/
theorem claim_C7 (a sep b : String) (ta tb : List Token)
    (hsep : ∀ c ∈ sep.toList, rust_is_whitespace c = true)
    (hnl : '\n' ∈ sep.toList)
    (ha : scan a = .ok ta) (hb : scan b = .ok tb) :
    scan (a ++ sep ++ b) = .ok (ta.dropLast ++ tb) := by
  show scan_loop (a ++ sep ++ b).toList = _
  have he : (a ++ sep ++ b).toList =
      a.toList ++ (sep.toList ++ b.toList) := by
    show (a.toList ++ sep.toList) ++ b.toList = _
    rw [List.append_assoc]
  rw [he]
  exact scan_loop_append_aux a.toList.length a.toList (Nat.le_refl _)
    sep.toList b.toList ta tb hsep hnl ha hb

/-- C7 counterexample: with a whitespace separator that contains no
newline, an unterminated line comment at the end of the first input
swallows the separator and the second input, so the claimed composition
law fails: scan of each part succeeds, but the concatenation's token
sequence is not the concatenation of the parts' token sequences. -/
theorem claim_C7_counterexample :
    scan ("//x") = .ok [⟨.EndOfFile⟩] ∧
    scan ("1") = .ok [⟨.Number 1⟩, ⟨.EndOfFile⟩] ∧
    (∀ c ∈ (" " : String).toList, rust_is_whitespace c = true) ∧
    scan ("//x" ++ " " ++ "1") = .ok [⟨.EndOfFile⟩] ∧
    ([⟨.EndOfFile⟩] : List Token).dropLast ≠
      ([⟨.EndOfFile⟩] : List Token).dropLast ++
        ([⟨.Number 1⟩, ⟨.EndOfFile⟩] : List Token).dropLast := by
  refine ⟨?_, ?_, by decide, ?_, by decide⟩
  · exact scan_loop_eq_done ("//x").toList none (by decide)
  · exact scan_loop_eq_done ("1").toList (some ⟨.Number 1⟩) (by decide)
  · exact scan_loop_eq_done ("//x" ++ " " ++ "1").toList none (by decide)

theorem claim_C7_witness :
    (∀ c ∈ ("\n" : String).toList, rust_is_whitespace c = true) ∧
    '\n' ∈ ("\n" : String).toList ∧
    scan ("1") = .ok [⟨.Number 1⟩, ⟨.EndOfFile⟩] ∧
    scan ("2") = .ok [⟨.Number 2⟩, ⟨.EndOfFile⟩] ∧
    scan ("1" ++ "\n" ++ "2") =
      .ok (([⟨.Number 1⟩, ⟨.EndOfFile⟩] : List Token).dropLast ++
        [⟨.Number 2⟩, ⟨.EndOfFile⟩]) := by
  have h1 : scan ("1") = .ok [⟨.Number 1⟩, ⟨.EndOfFile⟩] :=
    scan_loop_eq_done ("1").toList (some ⟨.Number 1⟩) (by decide)
  have h2 : scan ("2") = .ok [⟨.Number 2⟩, ⟨.EndOfFile⟩] :=
    scan_loop_eq_done ("2").toList (some ⟨.Number 2⟩) (by decide)
  exact ⟨by decide, by decide, h1, h2,
    claim_C7 ("1") ("\n") ("2") _ _ (by decide) (by decide) h1 h2⟩
